import Mathlib

/-!
Verification development for the adminmcp repository.

Shallow embedding of the policy engine (`acp/server/core.py`), the tool
dispatch layer (`acp/server/tools.py`), the ephemeral command executor
(`acp/client/executor.py`), the security validator
(`adminmcp/core/security.py`), the IPC framing layer
(`adminmcp/core/ipc.py`) and the shell-agent stop sequence
(`adminmcp/core/shell_agent.py`).

Strings are modelled as `List Char`; machine-level byte payloads as
`List Nat` with every element below 256.  Fallible Python code is
modelled with `Except` / `Option`; OS side effects (process spawning,
signals, file descriptors) are modelled by explicit state or event
traces.
-/

namespace AdminMcp

/-- Python `str.isspace` members relevant to `str.strip()`, modelled over
the ASCII range (the repository only manipulates ASCII command text). -/
def isPySpace (c : Char) : Bool :=
  c == ' ' || c == '\t' || c == '\n' || c == '\r' || c == '\x0b' || c == '\x0c'

/-- Python `str.strip()`: drop leading and trailing whitespace. -/
def pyStrip (s : List Char) : List Char :=
  ((s.dropWhile isPySpace).reverse.dropWhile isPySpace).reverse

/-- Python `str.lower()`, modelled on the ASCII range via `Char.toLower`. -/
def pyLower (s : List Char) : List Char :=
  s.map Char.toLower

/-! ## Policy engine (`PolicyEngine.evaluate`, `acp/server/core.py`) -/
/-- `PolicyEngine.denylist` from `acp/server/core.py`. -/
def denylist : List (List Char) :=
  ["rm -rf /".data, "mkfs".data, "shutdown".data, "reboot".data, "poweroff".data]

/-- `PolicyEngine.review_keywords` from `acp/server/core.py`. -/
def reviewKeywords : List (List Char) :=
  ["userdel".data, "iptables".data, "firewall-cmd".data, "dd if=".data]

/-- `command.strip().lower()` — the normalized command line that
`PolicyEngine.evaluate` matches against. -/
def normalize (command : List Char) : List Char :=
  pyLower (pyStrip command)

/-- `PolicyEngine.evaluate(command, mode, context)` from
`acp/server/core.py`: denylist substrings dominate; review keywords
elicit only in watch mode; otherwise execute.  Python's `in` operator on
strings is substring containment, modelled by `<:+:` on `List Char`. -/
def evaluate (command : List Char) (mode : String) : String :=
  let normalized := normalize command
  if denylist.any (fun token => decide (token <:+: normalized)) then
    "DENY"
  else if reviewKeywords.any (fun keyword => decide (keyword <:+: normalized))
      && (mode == "watch") then
    "ELICIT"
  else
    "EXECUTE"

/-! ## Tool dispatch (`ToolManager._shell_execute`, `acp/server/tools.py`)

The OS side of `asyncio.create_subprocess_shell` / `communicate` is an
oracle (`ProcOutcome`); the observable side effects of the handler are
collected in an event trace, so "no process is spawned" is the absence
of a `spawn` event. -/
/-- Mirror of `acp.common.models.ToolInvocationResult`. -/
structure ToolInvocationResult where
  status : String
  exit_code : Option Int
  stdout : Option String
  stderr : Option String
deriving DecidableEq

/-- The `shell/execute` arguments that `_shell_execute` reads:
`arguments.get("command", "")` (missing is modelled as `none`) and
`arguments.get("dry_run", False)`.  The `timeout` argument only feeds
`asyncio.wait_for`, whose expiry is decided by the oracle. -/
structure ShellArgs where
  command : Option String
  dry_run : Bool

/-- Events observable outside `_shell_execute`. -/
inductive ToolEffect where
  | policyEval
  | spawn
  | kill
deriving DecidableEq

/-- Oracle for the spawned shell process: `timeout s` is the
`asyncio.TimeoutError` branch (with the stdout captured after the kill),
`completed` is normal completion. -/
inductive ProcOutcome where
  | timeout (stdoutS : String)
  | completed (rc : Int) (stdoutS stderrS : String)

/-- Python `s or None` on a decoded stream. -/
def orNoneStr (s : String) : Option String :=
  if s = "" then none else some s

/-- `call.mode or "logonly"` — an empty mode string falls back to
`"logonly"`. -/
def toolMode (callMode : String) : String :=
  if callMode = "" then "logonly" else callMode

/-- `ToolManager._shell_execute` from `acp/server/tools.py`, with process
behaviour supplied by the oracle.  Stream decoding
(`decode("utf-8", errors="ignore")`) is modelled as the identity on the
oracle's strings. -/
def shell_execute (args : ShellArgs) (callMode : String) (os : ProcOutcome) :
    ToolInvocationResult × List ToolEffect :=
  if pyStrip (args.command.getD "").data = [] then
    (⟨"DENY", some 1, none, some "Missing command to execute."⟩, [])
  else if evaluate (args.command.getD "").data (toolMode callMode) ≠ "EXECUTE" then
    (⟨evaluate (args.command.getD "").data (toolMode callMode), some 1, none,
        some "Command denied by policy."⟩, [.policyEval])
  else if args.dry_run then
    (⟨evaluate (args.command.getD "").data (toolMode callMode), some 0,
        some "Policy approved", none⟩, [.policyEval])
  else
    match os with
    | .timeout out =>
        (⟨"TIMEOUT", some 124, orNoneStr out, some "Command timed out."⟩,
          [.policyEval, .spawn, .kill])
    | .completed rc out err =>
        (⟨"EXECUTE", some rc, orNoneStr out, orNoneStr err⟩, [.policyEval, .spawn])

/-! ## Ephemeral executor (`CommandExecutor.run`, `acp/client/executor.py`) -/
/-- The exceptions `CommandExecutor.run` handles. -/
inductive PyExc where
  | fileNotFound
  | timeoutExpired
deriving DecidableEq

/-- Child process lifecycle events. -/
inductive ProcEvent where
  | spawned
  | killed
deriving DecidableEq

/-- Oracle for `subprocess.run`: the executable is missing, the deadline
expired, or the child completed with the given code and streams. -/
inductive RunOutcome where
  | notFound
  | timedOut
  | completed (rc : Int) (stdoutS stderrS : String)

/-- Model of CPython `subprocess.run(..., capture_output=True, timeout=t)`:
a missing executable raises `FileNotFoundError` before any process
exists; on an expired deadline `subprocess.run` kills the child, reaps
it, and re-raises `TimeoutExpired` — so the trace records the kill.
The kill is `Popen.kill()`, a signal to the direct child's pid only;
processes the child spawned itself are outside this event's scope (see
`sigkill`/`timeoutKillSurvivors` for the pid-level view). -/
def subprocessRun (os : RunOutcome) :
    Except PyExc (Int × String × String) × List ProcEvent :=
  match os with
  | .notFound => (.error .fileNotFound, [])
  | .timedOut => (.error .timeoutExpired, [.spawned, .killed])
  | .completed rc out err => (.ok (rc, out, err), [.spawned])

/-- The fields of `LogEntry` that `run` computes from the child
(timestamps, duration and host metadata are dropped from the model). -/
structure ExecLogEntry where
  command_line : String
  exit_code : Int
  stdout : Option String
  stderr : Option String
deriving DecidableEq

/-- `s.strip() or None` from `CommandExecutor._build_log_entry`. -/
def stripOrNone (s : String) : Option String :=
  if pyStrip s.data = [] then none else some ⟨pyStrip s.data⟩

/-- `CommandExecutor._build_log_entry`: joined command line, exit code,
and streams stripped with empty results becoming absent. -/
def buildLogEntry (command : List String) (exit_code : Int)
    (stdoutS stderrS : String) : ExecLogEntry :=
  ⟨" ".intercalate command, exit_code, stripOrNone stdoutS, stripOrNone stderrS⟩

/-- `CommandExecutor.run` from `acp/client/executor.py`: the `try`
block's two handled exceptions synthesize exit codes 127 and 124; the
result is always returned, never an exception. -/
def executorRun (command : List String) (timeout : Nat) (os : RunOutcome) :
    Except PyExc (ExecLogEntry × List ProcEvent) :=
  match subprocessRun os with
  | (.ok (rc, out, err), evs) => .ok (buildLogEntry command rc out err, evs)
  | (.error .fileNotFound, evs) =>
      .ok (buildLogEntry command 127 ""
        ("Command not found: " ++ command.headD "" ++ "\n"), evs)
  | (.error .timeoutExpired, evs) =>
      .ok (buildLogEntry command 124 ""
        ("Command timed out after " ++ toString timeout ++ " seconds.\n"), evs)

/-- `Popen.kill()` at the pid level: `os.kill(self.pid, SIGKILL)`
signals exactly one pid.  The repository never creates a process group
(`start_new_session`, `setsid` and `os.killpg` appear nowhere), so both
`subprocess.run`'s `TimeoutExpired` handler and `process.kill()` in
`tools.py` remove only the signalled pid from the running set. -/
def sigkill (pid : Nat) (running : List Nat) : List Nat :=
  running.filter (fun p => p ≠ pid)

/-- The running pids once the spawned command has itself spawned
descendants — e.g. `bash -c "sleep 100 & wait"`, where the shell
backgrounds a `sleep` child of its own. -/
def spawnTree (child : Nat) (descendants : List Nat) : List Nat :=
  child :: descendants

/-- The pids still running after the deadline-expiry kill: the direct
child is signalled, nothing else is. -/
def timeoutKillSurvivors (child : Nat) (descendants : List Nat) : List Nat :=
  sigkill child (spawnTree child descendants)

/-! ## Stop sequences (`ShellAgent.stop`, `IPCServer.stop`)

`adminmcp/core/shell_agent.py` and `adminmcp/core/ipc.py`.  The OS is a
small explicit state: open descriptors, running processes, zombies and
filesystem paths.  Raising a Python exception is `Except.error`.  A
`SIGTERM` is modelled as immediately terminating the target (it becomes
a zombie until reaped); signalling a zombie succeeds as a no-op. -/
/-- The exception classes the stop paths can produce. -/
inductive OsErr where
  | osError
  | processLookup
  | childProcess
deriving DecidableEq

/-- OS-level state touched by the stop sequences. -/
structure OSState where
  fds : List Nat
  procs : List Nat
  zombies : List Nat
  files : List String
deriving DecidableEq

/-- `os.close(fd)`: raises `OSError` on an already-closed descriptor. -/
def osClose (fd : Nat) (st : OSState) : Except OsErr OSState :=
  if fd ∈ st.fds then .ok { st with fds := st.fds.erase fd } else .error .osError

/-- `os.kill(pid, SIGTERM)`: terminates a running process (leaving a
zombie), is a no-op on a zombie, raises `ProcessLookupError` when no
such process exists. -/
def osKill (pid : Nat) (st : OSState) : Except OsErr OSState :=
  if pid ∈ st.procs then
    .ok { st with procs := st.procs.erase pid, zombies := pid :: st.zombies }
  else if pid ∈ st.zombies then .ok st
  else .error .processLookup

/-- `os.waitpid(pid, 0)` on an exited child reaps it; on a non-child it
raises `ChildProcessError`. -/
def osWaitpid (pid : Nat) (st : OSState) : Except OsErr OSState :=
  if pid ∈ st.zombies then .ok { st with zombies := st.zombies.erase pid }
  else .error .childProcess

/-- `os.path.exists`. -/
def pathExists (p : String) (st : OSState) : Bool :=
  p ∈ st.files

/-- `os.unlink`: raises when the path does not exist. -/
def osUnlink (p : String) (st : OSState) : Except OsErr OSState :=
  if p ∈ st.files then .ok { st with files := st.files.erase p } else .error .osError

/-- State of an `IPCServer`: its socket path and the asyncio server
handle when `start` ran.  `Server.close`/`wait_closed` are idempotent
and raise nothing, so only the socket file is OS-visible here. -/
structure IpcState where
  socket_path : String
  server : Option Unit
deriving DecidableEq

/-- `IPCServer.stop` from `adminmcp/core/ipc.py`: if a server handle
exists, close it and unlink the socket file, guarded by an existence
check.  The source never clears `self.server`. -/
def ipcServerStop (ipc : IpcState) (st : OSState) : Except OsErr (IpcState × OSState) :=
  match ipc.server with
  | none => .ok (ipc, st)
  | some _ =>
      if pathExists ipc.socket_path st then
        (osUnlink ipc.socket_path st).map (fun st2 => (ipc, st2))
      else .ok (ipc, st)

/-- State of a `ShellAgent`: the fields `stop` reads.  `pty.fork` in the
parent always yields a nonzero pid and a fresh descriptor, so Python's
truthiness tests on `self.pid` / `self.master_fd` are modelled by
`Option`. -/
structure AgentState where
  running : Bool
  pid : Option Nat
  master_fd : Option Nat
  ipc_server : Option IpcState
deriving DecidableEq

/-- The `try: os.kill; os.waitpid except ProcessLookupError: pass` block
of `ShellAgent.stop`: only `ProcessLookupError` is caught. -/
def killReapStep (pid : Option Nat) (st : OSState) : Except OsErr OSState :=
  match pid with
  | none => .ok st
  | some p =>
      match osKill p st with
      | .error .processLookup => .ok st
      | .error e => .error e
      | .ok st2 =>
          match osWaitpid p st2 with
          | .error .processLookup => .ok st2
          | .error e => .error e
          | .ok st3 => .ok st3

/-- The final `if self.master_fd: os.close(self.master_fd)` of
`ShellAgent.stop`. -/
def closeFdStep (fd : Option Nat) (st : OSState) : Except OsErr OSState :=
  match fd with
  | none => .ok st
  | some f => osClose f st

/-- The `if self.ipc_server: await self.ipc_server.stop()` step of
`ShellAgent.stop`; the handle object itself stays in place. -/
def ipcStep (ipc : Option IpcState) (st : OSState) :
    Except OsErr (Option IpcState × OSState) :=
  match ipc with
  | none => .ok (none, st)
  | some i => (ipcServerStop i st).map (fun r => (some r.1, r.2))

/-- `ShellAgent.stop` from `adminmcp/core/shell_agent.py`: clear
`running`, stop the IPC server, terminate and reap the child, close the
master descriptor.  The source leaves `pid` and `master_fd` set. -/
def shellAgentStop (a : AgentState) (st : OSState) : Except OsErr (AgentState × OSState) :=
  match ipcStep a.ipc_server st with
  | .error e => .error e
  | .ok (ipc2, st1) =>
      match killReapStep a.pid st1 with
      | .error e => .error e
      | .ok st2 =>
          match closeFdStep a.master_fd st2 with
          | .error e => .error e
          | .ok st3 => .ok ({ a with running := false, ipc_server := ipc2 }, st3)

/-- A fully started agent: child shell pid 100, master descriptor 3
open, IPC server bound with its socket file present. -/
def startedAgent : AgentState :=
  ⟨true, some 100, some 3, some ⟨"/run/adminmcp.sock", some ()⟩⟩

/-- The OS state right after `startedAgent` started. -/
def startedOS : OSState :=
  ⟨[3], [100], [], ["/run/adminmcp.sock"]⟩

/-! ## Security validator (`SecurityValidator`, `adminmcp/core/security.py`)

The validator compiles five regular expressions and rejects a command in
restricted posture when any of them matches somewhere in the command
(`re.search`).  The patterns use literals, `\s`, character classes, `.`
and the `+`/`*` quantifiers, so regular expressions are embedded with a
character-predicate atom.  `RgxMatch` is the declarative semantics;
`reSearch` is the executable Brzozowski-derivative matcher, proved
equivalent below. -/
/-- Regular expressions over characters, with predicate atoms (character
classes, `\s`, `.`). -/
inductive Rgx where
  | fail
  | eps
  | pred (p : Char → Bool)
  | alt (r1 r2 : Rgx)
  | cat (r1 r2 : Rgx)
  | star (r : Rgx)

/-- Declarative matching semantics of `Rgx` on a whole word. -/
inductive RgxMatch : Rgx → List Char → Prop where
  | eps : RgxMatch .eps []
  | pred {p : Char → Bool} {c : Char} (h : p c = true) : RgxMatch (.pred p) [c]
  | altL {r1 r2 : Rgx} {s : List Char} (h : RgxMatch r1 s) : RgxMatch (.alt r1 r2) s
  | altR {r1 r2 : Rgx} {s : List Char} (h : RgxMatch r2 s) : RgxMatch (.alt r1 r2) s
  | cat {r1 r2 : Rgx} {s1 s2 : List Char} (h1 : RgxMatch r1 s1)
      (h2 : RgxMatch r2 s2) : RgxMatch (.cat r1 r2) (s1 ++ s2)
  | starNil {r : Rgx} : RgxMatch (.star r) []
  | starCons {r : Rgx} {s1 s2 : List Char} (h1 : RgxMatch r s1)
      (h2 : RgxMatch (.star r) s2) : RgxMatch (.star r) (s1 ++ s2)

/-- Does the expression accept the empty word? -/
def nullable : Rgx → Bool
  | .fail => false
  | .eps => true
  | .pred _ => false
  | .alt r1 r2 => nullable r1 || nullable r2
  | .cat r1 r2 => nullable r1 && nullable r2
  | .star _ => true

/-- Brzozowski derivative of an expression by one character. -/
def rderiv (c : Char) : Rgx → Rgx
  | .fail => .fail
  | .eps => .fail
  | .pred p => if p c then .eps else .fail
  | .alt r1 r2 => .alt (rderiv c r1) (rderiv c r2)
  | .cat r1 r2 =>
      if nullable r1 then .alt (.cat (rderiv c r1) r2) (rderiv c r2)
      else .cat (rderiv c r1) r2
  | .star r => .cat (rderiv c r) (.star r)

/-- Does some prefix of the input match the expression? -/
def matchHere (r : Rgx) : List Char → Bool
  | [] => nullable r
  | c :: s => nullable r || matchHere (rderiv c r) s

/-- Python `pattern.search(s)`: does the expression match at some
position inside the input? -/
def reSearch (r : Rgx) : List Char → Bool
  | [] => nullable r
  | c :: s => matchHere r (c :: s) || reSearch r s

/-- Declarative counterpart of `reSearch`: the expression matches some
contiguous slice of the input. -/
def SearchMatch (r : Rgx) (s : List Char) : Prop :=
  ∃ pre mid post, s = pre ++ mid ++ post ∧ RgxMatch r mid

/-- A single literal character. -/
def chr (c : Char) : Rgx := .pred (fun x => x == c)

/-- A literal string. -/
def lit (s : List Char) : Rgx := s.foldr (fun c r => .cat (chr c) r) .eps

/-- Concatenation of a pattern sequence. -/
def seq (rs : List Rgx) : Rgx := rs.foldr .cat .eps

/-- Regex `\s`, modelled over the ASCII range (same set as
`str.isspace` there). -/
def ws : Rgx := .pred isPySpace

/-- Regex `+`: one or more repetitions. -/
def rplus (r : Rgx) : Rgx := .cat r (.star r)

/-- Regex `.`: any character except a newline (no DOTALL flag). -/
def dot : Rgx := .pred (fun c => c != '\n')

/-- Pattern `rm\s+-[rf]+.*\/` — recursive delete toward root. -/
def patRmRf : Rgx :=
  seq [lit "rm".data, rplus ws, chr '-',
    rplus (.pred (fun c => c == 'r' || c == 'f')), .star dot, chr '/']

/-- Pattern `:\(\)\s*{\s*:\s*\|\s*:\s*&\s*};\s*:` — shell fork bomb. -/
def patForkBomb : Rgx :=
  seq [chr ':', chr '(', chr ')', .star ws, chr '{', .star ws, chr ':',
    .star ws, chr '|', .star ws, chr ':', .star ws, chr '&', .star ws,
    chr '}', chr ';', .star ws, chr ':']

/-- Pattern `mkfs` — filesystem format. -/
def patMkfs : Rgx := lit "mkfs".data

/-- Pattern `dd\s+if=` — low-level device copy. -/
def patDdIf : Rgx := seq [lit "dd".data, rplus ws, lit "if=".data]

/-- Pattern `>\s*/dev/sd[a-z]` — raw device write. -/
def patDevWrite : Rgx :=
  seq [chr '>', .star ws, lit "/dev/sd".data,
    .pred (fun c => decide ('a' ≤ c ∧ c ≤ 'z'))]

/-- `SecurityValidator.BLOCKED_PATTERNS` from `adminmcp/core/security.py`. -/
def BLOCKED_PATTERNS : List Rgx :=
  [patRmRf, patForkBomb, patMkfs, patDdIf, patDevWrite]

/-- `SecurityValidator.validate_command`: autonomous posture accepts
everything; otherwise reject when any blocked pattern is found in the
command. -/
def validate_command (mode : String) (command : List Char) : Bool :=
  if mode == "autonomous" then true
  else if BLOCKED_PATTERNS.any (fun p => reSearch p command) then false
  else true

/-! ## IPC framing and JSON round trip (`IPCProtocol`, `adminmcp/core/ipc.py`)

`send_message` serializes a mapping with `json.dumps` (defaults:
`ensure_ascii=True`, separators `", "` / `": "`), prefixes the UTF-8
bytes with a 4-byte big-endian length (`struct.pack("!I", ...)`), and
flushes; `receive_message` reads exactly 4 bytes, then exactly `length`
bytes, and runs `json.loads`.  The JSON data model is embedded below
with integers for numbers (floats are outside the model).  Because the
serializer is `ensure_ascii`, its output is pure ASCII, where the UTF-8
encoding is the identity byte map, so bytes are the character codes. -/
mutual
inductive JValue where
  | jnull
  | jbool (b : Bool)
  | jnum (n : Int)
  | jstr (s : List Char)
  | jarr (items : JItems)
  | jobj (members : JMembers)
inductive JItems where
  | nil
  | cons (v : JValue) (tl : JItems)
inductive JMembers where
  | nil
  | cons (k : List Char) (v : JValue) (tl : JMembers)
end

/-- Lower-case hexadecimal digit, as printed by Python's `\uXXXX`
escapes. -/
def hexDig (n : Nat) : Char :=
  if n < 10 then Char.ofNat (48 + n) else Char.ofNat (87 + n)

/-- Four-digit hexadecimal rendering of a code unit. -/
def hex4 (n : Nat) : List Char :=
  [hexDig (n / 4096 % 16), hexDig (n / 256 % 16), hexDig (n / 16 % 16),
    hexDig (n % 16)]

/-- Escaping of one character by `json.dumps` with `ensure_ascii=True`
(CPython `py_encode_basestring_ascii`): the short escapes, literal
printable ASCII, `\uXXXX` for other BMP characters, and a surrogate
pair for astral characters. -/
def escChar (c : Char) : List Char :=
  if c = '\\' then ['\\', '\\']
  else if c = '"' then ['\\', '"']
  else if c = '\x08' then ['\\', 'b']
  else if c = '\x0c' then ['\\', 'f']
  else if c = '\n' then ['\\', 'n']
  else if c = '\r' then ['\\', 'r']
  else if c = '\t' then ['\\', 't']
  else if c.toNat < 0x20 ∨ 0x7e < c.toNat then
    if c.toNat < 0x10000 then '\\' :: 'u' :: hex4 c.toNat
    else ('\\' :: 'u' :: hex4 (0xd800 + (c.toNat - 0x10000) / 0x400)) ++
      ('\\' :: 'u' :: hex4 (0xdc00 + (c.toNat - 0x10000) % 0x400))
  else [c]

/-- Escaping of a whole string body. -/
def escString : List Char → List Char
  | [] => []
  | c :: t => escChar c ++ escString t

/-- Decimal digit character. -/
def digitChar (n : Nat) : Char := Char.ofNat (48 + n)

/-- Decimal digits of a natural number (fuel-structured so that it
reduces; always called with sufficient fuel). -/
def natCharsAux : Nat → Nat → List Char
  | 0, _ => []
  | fuel + 1, n =>
      if n < 10 then [digitChar n]
      else natCharsAux fuel (n / 10) ++ [digitChar (n % 10)]

/-- Decimal rendering of a natural number. -/
def natChars (n : Nat) : List Char := natCharsAux (n + 1) n

/-- Python `repr` of an integer, as used by `json.dumps`. -/
def intChars (n : Int) : List Char :=
  if n < 0 then '-' :: natChars (-n).toNat else natChars n.toNat

mutual
/-- `json.dumps` with the default separators: the serialized text of a
value. -/
def dumpVal : JValue → List Char
  | .jnull => "null".data
  | .jbool true => "true".data
  | .jbool false => "false".data
  | .jnum n => intChars n
  | .jstr s => '"' :: (escString s ++ ['"'])
  | .jarr items => '[' :: dumpArrBody items
  | .jobj members => '{' :: dumpObjBody members
/-- Array contents after the opening bracket. -/
def dumpArrBody : JItems → List Char
  | .nil => [']']
  | .cons v tl => dumpVal v ++ dumpArrTail tl
/-- Array contents after a complete element: either the closing bracket
or a `", "` separator and further elements. -/
def dumpArrTail : JItems → List Char
  | .nil => [']']
  | .cons v tl => ',' :: ' ' :: (dumpVal v ++ dumpArrTail tl)
/-- Object contents after the opening brace. -/
def dumpObjBody : JMembers → List Char
  | .nil => ['}']
  | .cons k v tl =>
      '"' :: (escString k ++ ('"' :: ':' :: ' ' :: (dumpVal v ++ dumpObjTail tl)))
/-- Object contents after a complete member. -/
def dumpObjTail : JMembers → List Char
  | .nil => ['}']
  | .cons k v tl =>
      ',' :: ' ' :: ('"' :: (escString k ++
        ('"' :: ':' :: ' ' :: (dumpVal v ++ dumpObjTail tl))))
end

mutual
/-- Structural size of a value; a lower bound for the parser fuel. -/
def sizeV : JValue → Nat
  | .jnull => 1
  | .jbool _ => 1
  | .jnum _ => 1
  | .jstr _ => 1
  | .jarr items => 1 + sizeItems items
  | .jobj members => 1 + sizeMembers members
/-- Structural size of array items. -/
def sizeItems : JItems → Nat
  | .nil => 1
  | .cons v tl => 1 + max (sizeV v) (sizeItems tl)
/-- Structural size of object members. -/
def sizeMembers : JMembers → Nat
  | .nil => 1
  | .cons _ v tl => 1 + max (sizeV v) (sizeMembers tl)
end

/-- JSON whitespace as skipped by the `json.loads` scanner. -/
def jsonWs (c : Char) : Bool :=
  c == ' ' || c == '\t' || c == '\n' || c == '\r'

/-- Skip JSON whitespace. -/
def skipWs (s : List Char) : List Char := s.dropWhile jsonWs

/-- Value of a hexadecimal digit character. -/
def hexVal (c : Char) : Option Nat :=
  if 48 ≤ c.toNat ∧ c.toNat ≤ 57 then some (c.toNat - 48)
  else if 97 ≤ c.toNat ∧ c.toNat ≤ 102 then some (c.toNat - 87)
  else if 65 ≤ c.toNat ∧ c.toNat ≤ 70 then some (c.toNat - 55)
  else none

/-- The single-character backslash escapes accepted by the scanner. -/
def unescSimple (e : Char) : Option Char :=
  if e = '"' then some '"'
  else if e = '\\' then some '\\'
  else if e = '/' then some '/'
  else if e = 'b' then some '\x08'
  else if e = 'f' then some '\x0c'
  else if e = 'n' then some '\n'
  else if e = 'r' then some '\r'
  else if e = 't' then some '\t'
  else none

/-- Combined value of four hexadecimal digit characters. -/
def hex4Val (a b c d : Char) : Option Nat :=
  match hexVal a, hexVal b, hexVal c, hexVal d with
  | some x, some y, some z, some w => some (((x * 16 + y) * 16 + z) * 16 + w)
  | _, _, _, _ => none

/-- Scan exactly four hexadecimal digits. -/
def parseU (s : List Char) : Option (Nat × List Char) :=
  match s with
  | h1 :: h2 :: h3 :: h4 :: s2 =>
      match hex4Val h1 h2 h3 h4 with
      | none => none
      | some code => some (code, s2)
  | _ => none

/-- Decode one backslash escape (the input starts right after the
backslash): a `\uXXXX` unit, combining a high surrogate with the
following escaped low surrogate (CPython `py_scanstring`), or one of the
short escapes.  Lone surrogates are not representable in `Char` and are
rejected by the model. -/
def parseEsc (s : List Char) : Option (Char × List Char) :=
  match s with
  | [] => none
  | e :: s2 =>
      if e = 'u' then
        match parseU s2 with
        | none => none
        | some (code, s3) =>
            if 0xd800 ≤ code ∧ code ≤ 0xdbff then
              match s3 with
              | b1 :: b2 :: s4 =>
                  if b1 = '\\' ∧ b2 = 'u' then
                    match parseU s4 with
                    | none => none
                    | some (lo, s5) =>
                        if 0xdc00 ≤ lo ∧ lo ≤ 0xdfff then
                          some (Char.ofNat (0x10000 + (code - 0xd800) * 0x400 +
                            (lo - 0xdc00)), s5)
                        else none
                  else none
              | _ => none
            else some (Char.ofNat code, s3)
      else
        match unescSimple e with
        | some c2 => some (c2, s2)
        | none => none

/-- String-body scanner, fuelled (one unit per decoded character) so the
recursion is structural; every decoded character consumes at least one
input character, so `input length + 1` fuel always suffices. -/
def parseStrF : Nat → List Char → Option (List Char × List Char)
  | 0, _ => none
  | fuel + 1, s =>
      match s with
      | [] => none
      | c :: s2 =>
          if c = '"' then some ([], s2)
          else if c = '\\' then
            match parseEsc s2 with
            | none => none
            | some (c2, s3) => (parseStrF fuel s3).map (fun r => (c2 :: r.1, r.2))
          else (parseStrF fuel s2).map (fun r => (c :: r.1, r.2))

/-- String-body scanner (CPython `py_scanstring`): consume until the
closing quote, decoding escapes. -/
def parseStr (s : List Char) : Option (List Char × List Char) :=
  parseStrF (s.length + 1) s

/-- Is a character a decimal digit? -/
def isDig (c : Char) : Bool := 48 ≤ c.toNat && c.toNat ≤ 57

/-- Greedy decimal scanner with accumulator. -/
def parseDigits (acc : Nat) : List Char → Nat × List Char
  | [] => (acc, [])
  | c :: s =>
      if isDig c then parseDigits (acc * 10 + (c.toNat - 48)) s
      else (acc, c :: s)

/-- Does the input begin with a decimal digit? -/
def startsDigit : List Char → Bool
  | [] => false
  | c :: _ => isDig c

/-- Integer scanner: optional minus sign, one or more digits.  (Floats
and exponents are outside the model.) -/
def parseNum : List Char → Option (Int × List Char)
  | [] => none
  | c :: s =>
      if c = '-' then
        if startsDigit s then
          some (-(Int.ofNat (parseDigits 0 s).1), (parseDigits 0 s).2)
        else none
      else if isDig c then
        some (Int.ofNat (parseDigits 0 (c :: s)).1, (parseDigits 0 (c :: s)).2)
      else none

/-- Strip an expected single character from the head of the input. -/
def splitHead (target : Char) : List Char → Option (List Char)
  | [] => none
  | c :: t => if c = target then some t else none

/-- Consume an exact literal. -/
def expectLit : List Char → List Char → Option (List Char)
  | [], s => some s
  | _ :: _, [] => none
  | c :: l, d :: s => if c = d then expectLit l s else none

mutual
/-- Recursive-descent `json.loads` scanner for one value, fuelled to
make the recursion structural; `sizeV` of the parsed value bounds the
fuel needed. -/
def parseVal : Nat → List Char → Option (JValue × List Char)
  | 0, _ => none
  | fuel + 1, s =>
      match skipWs s with
      | [] => none
      | c :: s2 =>
          if c = '"' then (parseStr s2).map (fun r => (JValue.jstr r.1, r.2))
          else if c = '[' then
            match splitHead ']' (skipWs s2) with
            | some s3 => some (.jarr .nil, s3)
            | none =>
                (parseVal fuel (skipWs s2)).bind (fun rv =>
                  (parseItems fuel rv.2).bind (fun ri =>
                    some (.jarr (.cons rv.1 ri.1), ri.2)))
          else if c = '{' then
            match splitHead '}' (skipWs s2) with
            | some s3 => some (.jobj .nil, s3)
            | none =>
                (splitHead '"' (skipWs s2)).bind (fun s3 =>
                  (parseStr s3).bind (fun rk =>
                    (splitHead ':' (skipWs rk.2)).bind (fun s5 =>
                      (parseVal fuel s5).bind (fun rv =>
                        (parseMembers fuel rv.2).bind (fun rm =>
                          some (.jobj (.cons rk.1 rv.1 rm.1), rm.2))))))
          else if c = 'n' then (expectLit "ull".data s2).map (fun r => (.jnull, r))
          else if c = 't' then (expectLit "rue".data s2).map (fun r => (.jbool true, r))
          else if c = 'f' then (expectLit "alse".data s2).map (fun r => (.jbool false, r))
          else (parseNum (c :: s2)).map (fun r => (.jnum r.1, r.2))
/-- After one array element: the closing bracket or a comma and further
elements. -/
def parseItems : Nat → List Char → Option (JItems × List Char)
  | 0, _ => none
  | fuel + 1, s =>
      match skipWs s with
      | ']' :: s2 => some (.nil, s2)
      | ',' :: s2 =>
          (parseVal fuel s2).bind (fun rv =>
            (parseItems fuel rv.2).bind (fun ri =>
              some (.cons rv.1 ri.1, ri.2)))
      | _ => none
/-- After one object member: the closing brace or a comma and further
members. -/
def parseMembers : Nat → List Char → Option (JMembers × List Char)
  | 0, _ => none
  | fuel + 1, s =>
      match skipWs s with
      | '}' :: s2 => some (.nil, s2)
      | ',' :: s2 =>
          (splitHead '"' (skipWs s2)).bind (fun s3 =>
            (parseStr s3).bind (fun rk =>
              (splitHead ':' (skipWs rk.2)).bind (fun s5 =>
                (parseVal fuel s5).bind (fun rv =>
                  (parseMembers fuel rv.2).bind (fun rm =>
                    some (.cons rk.1 rv.1 rm.1, rm.2))))))
      | _ => none
end

/-- `json.loads`: parse one value and require the input to be fully
consumed. -/
def jloads (s : List Char) : Option JValue :=
  match parseVal (s.length + 1) s with
  | some (v, []) => some v
  | _ => none

/-- All characters of a string are ASCII (one UTF-8 byte each). -/
def allAscii (s : List Char) : Bool := s.all (fun c => c.toNat < 128)

/-- `struct.pack('!I', n)`: the four big-endian bytes of a 32-bit
unsigned integer (the caller guarantees `n < 2^32`). -/
def pack32 (n : Nat) : List Nat :=
  [n / 16777216 % 256, n / 65536 % 256, n / 256 % 256, n % 256]

/-- `struct.unpack('!I', bytes([b0, b1, b2, b3]))[0]`. -/
def unpack32 (b0 b1 b2 b3 : Nat) : Nat :=
  b0 * 16777216 + b1 * 65536 + b2 * 256 + b3

/-- `.encode('utf-8')` restricted to ASCII text: one byte per
character, equal to its code point.  ``dumpVal_ascii`` shows every
`json.dumps` output lands in this domain. -/
def utf8Encode (s : List Char) : List Nat := s.map Char.toNat

/-- `.decode('utf-8')` on ASCII bytes. -/
def utf8Decode (bs : List Nat) : List Char := bs.map Char.ofNat

/-- `IPCProtocol.send_message`: serialize the mapping with
`json.dumps`, UTF-8-encode it, and write a 4-byte big-endian length
prefix followed by the payload.  `struct.pack('!I', ·)` raises above
`2^32 - 1`, modeled as `none`. -/
def send_message (message : JValue) : Option (List Nat) :=
  let data := utf8Encode (dumpVal message)
  if data.length < 4294967296 then some (pack32 data.length ++ data)
  else none

/-- `IPCProtocol.receive_message`: `readexactly(4)`, unpack the length,
`readexactly(length)`, and `json.loads` the decoded payload; a short
read (`IncompleteReadError`) yields `none`.  The unread remainder of
the stream is returned alongside the parsed value. -/
def receive_message (stream : List Nat) : Option (JValue × List Nat) :=
  match stream with
  | b0 :: b1 :: b2 :: b3 :: rest =>
      let length := unpack32 b0 b1 b2 b3
      if length ≤ rest.length then
        (jloads (utf8Decode (rest.take length))).map
          (fun v => (v, rest.drop length))
      else none
  | _ => none

/-! Theorems: the verification results about the definitions above. -/

/-! ## Theorems for the policy engine -/
/-- C1: a command whose normalized form contains a denylisted substring is
denied in every mode; in particular this holds even when a review keyword
is also present (denylist precedence — the denylist loop runs first). -/
theorem evaluate_denylist_deny (command : List Char) (mode : String)
    (token : List Char) (hmem : token ∈ denylist)
    (hinf : token <:+: normalize command) :
    evaluate command mode = "DENY" := by
  unfold evaluate
  have hany : denylist.any (fun t => decide (t <:+: normalize command)) = true := by
    rw [List.any_eq_true]
    exact ⟨token, hmem, by simpa using hinf⟩
  simp [hany]

/-- Witness for C1: a command containing both the review keyword
`dd if=` and the denylisted substring `rm -rf /` is denied in watch
mode. -/
theorem evaluate_denylist_deny_witness :
    evaluate "dd if=x rm -rf /".data "watch" = "DENY" :=
  evaluate_denylist_deny "dd if=x rm -rf /".data "watch" "rm -rf /".data
    (by decide) (by decide)

/-- C2: a command whose normalized form contains a review keyword and no
denylisted substring elicits in watch mode, and the modes `logonly` and
`dialog` never elicit for any command. -/
theorem evaluate_review_elicit :
    (∀ command : List Char,
      (∃ keyword ∈ reviewKeywords, keyword <:+: normalize command) →
      (∀ token ∈ denylist, ¬ token <:+: normalize command) →
      evaluate command "watch" = "ELICIT") ∧
    (∀ command : List Char,
      evaluate command "logonly" ≠ "ELICIT" ∧ evaluate command "dialog" ≠ "ELICIT") := by
  constructor
  · intro command ⟨keyword, hkmem, hkinf⟩ hden
    unfold evaluate
    have hany : denylist.any (fun t => decide (t <:+: normalize command)) = false := by
      rw [List.any_eq_false]
      intro t ht
      simpa using hden t ht
    have hrev : reviewKeywords.any (fun k => decide (k <:+: normalize command)) = true := by
      rw [List.any_eq_true]
      exact ⟨keyword, hkmem, by simpa using hkinf⟩
    simp [hany, hrev]
  · intro command
    have h : ∀ mode : String, (mode == "watch") = false →
        evaluate command mode ≠ "ELICIT" := by
      intro mode hm
      unfold evaluate
      simp only [hm, Bool.and_false, if_false, Bool.false_eq_true]
      split <;> simp
    exact ⟨h "logonly" (by decide), h "dialog" (by decide)⟩

/-- Witness for C2: `iptables -L` elicits in watch mode and does not
elicit in logonly mode. -/
theorem evaluate_review_elicit_witness :
    evaluate "iptables -L".data "watch" = "ELICIT" ∧
    evaluate "iptables -L".data "logonly" ≠ "ELICIT" :=
  ⟨evaluate_review_elicit.1 "iptables -L".data
      ⟨"iptables".data, by decide, by decide⟩ (by decide),
    (evaluate_review_elicit.2 "iptables -L".data).1⟩

/-- A command that strips to nothing matches no denylist token and no
review keyword, so the policy engine lets it through. -/
theorem evaluate_of_strip_nil (command : List Char) (mode : String)
    (h : pyStrip command = []) : evaluate command mode = "EXECUTE" := by
  have hden : (denylist.any fun t => decide (t <:+: normalize command)) = false := by
    unfold normalize pyLower
    rw [h]
    decide
  have hrev : (reviewKeywords.any fun k => decide (k <:+: normalize command)) = false := by
    unfold normalize pyLower
    rw [h]
    decide
  unfold evaluate
  simp [hden, hrev]

/-- C3: whenever the policy decision for a `shell/execute` call is not
EXECUTE, the handler returns that decision as the result status and the
event trace contains no process spawn — the spawn branch is
unreachable. -/
theorem shell_execute_policy_gate (args : ShellArgs) (callMode : String)
    (os : ProcOutcome)
    (h : evaluate (args.command.getD "").data (toolMode callMode) ≠ "EXECUTE") :
    (shell_execute args callMode os).1.status
        = evaluate (args.command.getD "").data (toolMode callMode) ∧
      ToolEffect.spawn ∉ (shell_execute args callMode os).2 := by
  by_cases hstrip : pyStrip (args.command.getD "").data = []
  · exact absurd (evaluate_of_strip_nil _ _ hstrip) h
  · unfold shell_execute
    rw [if_neg hstrip, if_pos h]
    exact ⟨rfl, by simp⟩

/-- Witness for C3: a denylisted command in watch mode is reported with
the DENY status and no spawn event. -/
theorem shell_execute_policy_gate_witness :
    evaluate ((⟨some "rm -rf /", false⟩ : ShellArgs).command.getD "").data
        (toolMode "watch") ≠ "EXECUTE" ∧
      (shell_execute ⟨some "rm -rf /", false⟩ "watch" (.completed 0 "" "")).1.status
        = evaluate ((⟨some "rm -rf /", false⟩ : ShellArgs).command.getD "").data
            (toolMode "watch") ∧
      ToolEffect.spawn ∉
        (shell_execute ⟨some "rm -rf /", false⟩ "watch" (.completed 0 "" "")).2 :=
  ⟨by decide,
    shell_execute_policy_gate ⟨some "rm -rf /", false⟩ "watch" (.completed 0 "" "")
      (by decide)⟩

/-- C10: a missing, empty, or whitespace-only command is rejected
immediately with status DENY, exit code 1 and the fixed message — the
empty trace shows the policy engine is not consulted and nothing is
spawned. -/
theorem shell_execute_missing_command (args : ShellArgs) (callMode : String)
    (os : ProcOutcome)
    (h : pyStrip (args.command.getD "").data = []) :
    shell_execute args callMode os =
      (⟨"DENY", some 1, none, some "Missing command to execute."⟩, []) := by
  unfold shell_execute
  rw [if_pos h]

/-- Witness for C10: a whitespace-only command is rejected with the fixed
DENY result and an empty effect trace. -/
theorem shell_execute_missing_command_witness :
    pyStrip ((⟨some "   ", false⟩ : ShellArgs).command.getD "").data = [] ∧
      shell_execute ⟨some "   ", false⟩ "watch" (.completed 0 "" "") =
        (⟨"DENY", some 1, none, some "Missing command to execute."⟩, []) :=
  ⟨by decide,
    shell_execute_missing_command ⟨some "   ", false⟩ "watch" (.completed 0 "" "")
      (by decide)⟩

/-- C4 (amended): on an expired deadline the executor returns (never
raises) exit code 124 with the explanatory stderr and the direct child
was killed and reaped; on the tool layer, whenever a process was
spawned under a timing-out oracle the result status is TIMEOUT with
exit code 124 and a recorded kill.  At the pid level the kill reaches
exactly the direct child: it is no longer running afterwards, while
every process the child spawned itself survives untouched (no process
group is ever created or signalled).  The concrete conjunct is the
spec's `sleep`-style exemplar. -/
theorem executor_timeout_kills :
    (∀ (command : List String) (timeout : Nat),
      executorRun command timeout .timedOut =
        .ok (buildLogEntry command 124 ""
            ("Command timed out after " ++ toString timeout ++ " seconds.\n"),
          [.spawned, .killed])) ∧
    (∀ (args : ShellArgs) (callMode : String) (out : String),
      ToolEffect.spawn ∈ (shell_execute args callMode (.timeout out)).2 →
        (shell_execute args callMode (.timeout out)).1.status = "TIMEOUT" ∧
        (shell_execute args callMode (.timeout out)).1.exit_code = some 124 ∧
        ToolEffect.kill ∈ (shell_execute args callMode (.timeout out)).2) ∧
    (∀ (child : Nat) (descendants : List Nat),
      child ∉ descendants →
      timeoutKillSurvivors child descendants = descendants ∧
      child ∉ timeoutKillSurvivors child descendants) ∧
    executorRun ["sleep", "5"] 1 .timedOut =
      .ok (⟨"sleep 5", 124, none, some "Command timed out after 1 seconds."⟩,
        [.spawned, .killed]) := by
  refine ⟨fun command timeout => rfl, ?_, ?_, by rfl⟩
  case refine_2 =>
    intro child descendants hnd
    have hfil : timeoutKillSurvivors child descendants =
        descendants.filter (fun p => decide (p ≠ child)) := by
      simp [timeoutKillSurvivors, spawnTree, sigkill, List.filter_cons]
    have hall : descendants.filter (fun p => decide (p ≠ child)) =
        descendants := by
      apply List.filter_eq_self.mpr
      intro a ha
      simp only [decide_eq_true_eq]
      intro hrfl
      exact hnd (hrfl ▸ ha)
    rw [hfil, hall]
    exact ⟨rfl, hnd⟩
  case refine_1 =>
  intro args callMode out h
  unfold shell_execute at h ⊢
  by_cases h1 : pyStrip (args.command.getD "").data = []
  · rw [if_pos h1] at h
    simp at h
  · rw [if_neg h1] at h ⊢
    by_cases h2 : evaluate (args.command.getD "").data (toolMode callMode) ≠ "EXECUTE"
    · rw [if_pos h2] at h
      simp at h
    · rw [if_neg h2] at h ⊢
      by_cases h3 : args.dry_run = true
      · rw [if_pos h3] at h
        simp at h
      · rw [if_neg h3] at h ⊢
        exact ⟨rfl, rfl, by simp⟩

/-- Witness for C4's hypothesis parts: an allowed command under a
timing-out oracle yields TIMEOUT, 124, and a kill event, and at the
pid level (shell 100, backgrounded sleep 101) the kill removes exactly
the direct child. -/
theorem executor_timeout_kills_witness :
    ToolEffect.spawn ∈ (shell_execute ⟨some "sleep 5", false⟩ "logonly" (.timeout "")).2 ∧
      (shell_execute ⟨some "sleep 5", false⟩ "logonly" (.timeout "")).1.status = "TIMEOUT" ∧
      (shell_execute ⟨some "sleep 5", false⟩ "logonly" (.timeout "")).1.exit_code = some 124 ∧
      ToolEffect.kill ∈ (shell_execute ⟨some "sleep 5", false⟩ "logonly" (.timeout "")).2 ∧
      (100 : Nat) ∉ ([101] : List Nat) ∧
      timeoutKillSurvivors 100 [101] = [101] ∧
      (100 : Nat) ∉ timeoutKillSurvivors 100 [101] :=
  ⟨by decide,
    (executor_timeout_kills.2.1 ⟨some "sleep 5", false⟩ "logonly" "" (by decide)).1,
    (executor_timeout_kills.2.1 ⟨some "sleep 5", false⟩ "logonly" "" (by decide)).2.1,
    (executor_timeout_kills.2.1 ⟨some "sleep 5", false⟩ "logonly" "" (by decide)).2.2,
    by decide,
    (executor_timeout_kills.2.2.1 100 [101] (by decide)).1,
    (executor_timeout_kills.2.2.1 100 [101] (by decide)).2⟩

/-- Counterexample to C4 as stated: the deadline-expiry kill does not
reach the spawned process's own children.  For
`run(["bash", "-c", "sleep 100 & wait"], timeout=1)` — the shell at
pid 100 having backgrounded a `sleep` at pid 101 — the executor
synthesizes TIMEOUT's exit code 124 and the trace kills the shell, yet
the `sleep` is still running afterwards: the survivor set is `[101]`,
not `[]`, so the spawned command's child is left running. -/
theorem executor_timeout_descendant_survives :
    executorRun ["bash", "-c", "sleep 100 & wait"] 1 .timedOut =
      .ok (⟨"bash -c sleep 100 & wait", 124, none,
          some "Command timed out after 1 seconds."⟩, [.spawned, .killed]) ∧
    timeoutKillSurvivors 100 [101] = [101] ∧
    101 ∈ timeoutKillSurvivors 100 [101] ∧
    timeoutKillSurvivors 100 [101] ≠ [] :=
  ⟨by rfl, by rfl, by decide, by decide⟩

/-- C6: a missing executable makes `run` return a synthesized result —
exit code 127, descriptive stderr, no process ever spawned — instead of
raising.  The concrete conjunct shows the exact stderr after
stripping. -/
theorem executor_not_found :
    (∀ (command : List String) (timeout : Nat),
      executorRun command timeout .notFound =
        .ok (buildLogEntry command 127 ""
            ("Command not found: " ++ command.headD "" ++ "\n"), [])) ∧
    executorRun ["missing-binary"] 5 .notFound =
      .ok (⟨"missing-binary", 127, none, some "Command not found: missing-binary"⟩,
        []) :=
  ⟨fun command timeout => rfl, by rfl⟩

/-- C7: a completed command passes the child's exit code through, both
streams are stripped, and an empty stripped stream becomes `none` —
never the empty string.  The concrete conjunct is the spec's
`echo hello` exemplar. -/
theorem executor_completed :
    (∀ (command : List String) (timeout : Nat) (rc : Int) (out err : String),
      executorRun command timeout (.completed rc out err) =
        .ok (⟨" ".intercalate command, rc, stripOrNone out, stripOrNone err⟩,
          [.spawned]) ∧
      stripOrNone out ≠ some "" ∧ stripOrNone err ≠ some "") ∧
    executorRun ["echo", "hello"] 5 (.completed 0 "hello\n" "") =
      .ok (⟨"echo hello", 0, some "hello", none⟩, [.spawned]) := by
  refine ⟨fun command timeout rc out err => ⟨rfl, ?_, ?_⟩, by rfl⟩ <;>
    · unfold stripOrNone
      split
      · simp
      · next h =>
          intro hcontra
          rw [Option.some_inj] at hcontra
          exact h (congrArg String.data hcontra)

/-- Counterexample to C8 as stated: stopping an already-stopped
(started-then-stopped) Shell Agent raises.  The first `stop` succeeds;
the second reaches `os.close` on the already-closed master descriptor —
`stop` never clears `self.master_fd` — and raises `OSError`. -/
theorem shellAgentStop_double_raises :
    ∃ a1 st1, shellAgentStop startedAgent startedOS = .ok (a1, st1) ∧
      shellAgentStop a1 st1 = .error .osError := by
  refine ⟨⟨false, some 100, some 3, some ⟨"/run/adminmcp.sock", some ()⟩⟩,
    ⟨[], [], [], []⟩, ?_, ?_⟩ <;>
    simp [shellAgentStop, ipcStep, ipcServerStop, pathExists, osUnlink,
      killReapStep, osKill, osWaitpid, closeFdStep, osClose, startedAgent,
      startedOS, Except.map]

/-- `ipcServerStop` never raises — the unlink is guarded by the
existence check — and it leaves the descriptor table untouched. -/
theorem ipcServerStop_ok (ipc : IpcState) (st : OSState) :
    ∃ r, ipcServerStop ipc st = .ok r ∧ r.2.fds = st.fds := by
  rcases hs : ipc.server with _ | u
  · simp only [ipcServerStop, hs]
    exact ⟨_, rfl, rfl⟩
  · by_cases h : ipc.socket_path ∈ st.files
    · simp only [ipcServerStop, hs, pathExists, osUnlink, h]
      simp [Except.map]
    · simp only [ipcServerStop, hs, pathExists, osUnlink, h]
      simp [Except.map]

/-- The kill/reap block never raises — a live child becomes a zombie and
is reaped, a zombie is reaped, and a missing process raises
`ProcessLookupError`, which the handler catches — and it leaves the
descriptor table untouched. -/
theorem killReapStep_ok (pid : Option Nat) (st : OSState) :
    ∃ st2, killReapStep pid st = .ok st2 ∧ st2.fds = st.fds := by
  rcases pid with _ | p
  · exact ⟨st, rfl, rfl⟩
  · by_cases hp : p ∈ st.procs
    · simp [killReapStep, osKill, osWaitpid, hp]
    · by_cases hz : p ∈ st.zombies
      · simp [killReapStep, osKill, osWaitpid, hp, hz]
      · simp [killReapStep, osKill, osWaitpid, hp, hz]

/-- The IPC step of `ShellAgent.stop` never raises and leaves the
descriptor table untouched. -/
theorem ipcStep_ok (ipc : Option IpcState) (st : OSState) :
    ∃ p, ipcStep ipc st = .ok p ∧ p.2.fds = st.fds := by
  rcases ipc with _ | i
  · exact ⟨_, rfl, rfl⟩
  · obtain ⟨r, hr, hfds⟩ := ipcServerStop_ok i st
    refine ⟨(some r.1, r.2), ?_, hfds⟩
    simp only [ipcStep, hr, Except.map]

/-- C8 amended: `IPCServer.stop` never raises (hence is idempotent), and
`ShellAgent.stop` does not raise from any state — any subset of child
process, master descriptor and IPC server created — in which the master
descriptor, if set, is still open.  (As `shellAgentStop_double_raises`
shows, the second stop of a fully started agent violates the original
claim, because the master descriptor is then already closed.) -/
theorem stop_safe_amended :
    (∀ (ipc : IpcState) (st : OSState), ∃ r, ipcServerStop ipc st = .ok r) ∧
    (∀ (a : AgentState) (st : OSState),
      (a.master_fd = none ∨ ∃ fd, a.master_fd = some fd ∧ fd ∈ st.fds) →
      ∃ r, shellAgentStop a st = .ok r) := by
  constructor
  · intro ipc st
    obtain ⟨r, hr, _⟩ := ipcServerStop_ok ipc st
    exact ⟨r, hr⟩
  · intro a st hfd
    obtain ⟨⟨ipc2, st1⟩, hipc, hfds1⟩ := ipcStep_ok a.ipc_server st
    obtain ⟨st2, hkill, hfds2⟩ := killReapStep_ok a.pid st1
    have hclose : ∃ st3, closeFdStep a.master_fd st2 = .ok st3 := by
      rcases hfd with hnone | ⟨fd, hfdeq, hmem⟩
      · rw [hnone]
        exact ⟨_, rfl⟩
      · rw [hfdeq]
        simp only [closeFdStep, osClose]
        rw [if_pos (by rw [hfds2]; rw [show st1.fds = st.fds from hfds1]; exact hmem)]
        exact ⟨_, rfl⟩
    obtain ⟨st3, hclose⟩ := hclose
    exact ⟨({ a with running := false, ipc_server := ipc2 }, st3),
      by simp only [shellAgentStop, hipc, hkill, hclose]⟩

/-- Witness for the amended C8: stopping the fully started agent once
succeeds, as does stopping an IPC server whose socket file is gone. -/
theorem stop_safe_amended_witness :
    ((startedAgent.master_fd = none ∨
        ∃ fd, startedAgent.master_fd = some fd ∧ fd ∈ startedOS.fds) ∧
      ∃ r, shellAgentStop startedAgent startedOS = .ok r) ∧
    ∃ r, ipcServerStop ⟨"/run/adminmcp.sock", some ()⟩ ⟨[], [], [], []⟩ = .ok r :=
  ⟨⟨Or.inr ⟨3, rfl, by decide⟩,
      stop_safe_amended.2 startedAgent startedOS (Or.inr ⟨3, rfl, by decide⟩)⟩,
    stop_safe_amended.1 ⟨"/run/adminmcp.sock", some ()⟩ ⟨[], [], [], []⟩⟩

/-- Inversion: nothing matches `fail`. -/
theorem fail_inv {s : List Char} (h : RgxMatch .fail s) : False := by
  cases h

/-- Inversion: `eps` only matches the empty word. -/
theorem eps_inv {s : List Char} (h : RgxMatch .eps s) : s = [] := by
  cases h
  rfl

/-- Inversion for predicate atoms. -/
theorem pred_inv {p : Char → Bool} {s : List Char} (h : RgxMatch (.pred p) s) :
    ∃ c, s = [c] ∧ p c = true := by
  cases h with
  | pred hp => exact ⟨_, rfl, hp⟩

/-- Inversion for alternation. -/
theorem alt_inv {r1 r2 : Rgx} {s : List Char} (h : RgxMatch (.alt r1 r2) s) :
    RgxMatch r1 s ∨ RgxMatch r2 s := by
  cases h with
  | altL h => exact Or.inl h
  | altR h => exact Or.inr h

/-- Inversion for concatenation. -/
theorem cat_inv {r1 r2 : Rgx} {s : List Char} (h : RgxMatch (.cat r1 r2) s) :
    ∃ s1 s2, s = s1 ++ s2 ∧ RgxMatch r1 s1 ∧ RgxMatch r2 s2 := by
  cases h with
  | cat h1 h2 => exact ⟨_, _, rfl, h1, h2⟩

/-- An expression accepts the empty word exactly when `nullable` says
so. -/
theorem nullable_iff (r : Rgx) : nullable r = true ↔ RgxMatch r [] := by
  induction r with
  | fail =>
      refine ⟨fun h => ?_, fun h => (fail_inv h).elim⟩
      simp [nullable] at h
  | eps =>
      exact ⟨fun _ => .eps, fun _ => rfl⟩
  | pred p =>
      refine ⟨fun h => ?_, fun h => ?_⟩
      · simp [nullable] at h
      · obtain ⟨c, hc, _⟩ := pred_inv h
        cases hc
  | alt r1 r2 ih1 ih2 =>
      simp only [nullable, Bool.or_eq_true]
      constructor
      · rintro (h | h)
        · exact .altL (ih1.mp h)
        · exact .altR (ih2.mp h)
      · intro h
        rcases alt_inv h with h | h
        · exact Or.inl (ih1.mpr h)
        · exact Or.inr (ih2.mpr h)
  | cat r1 r2 ih1 ih2 =>
      simp only [nullable, Bool.and_eq_true]
      constructor
      · rintro ⟨h1, h2⟩
        exact @RgxMatch.cat _ _ [] [] (ih1.mp h1) (ih2.mp h2)
      · intro h
        obtain ⟨s1, s2, heq, h1, h2⟩ := cat_inv h
        obtain ⟨hs1, hs2⟩ := List.append_eq_nil.mp heq.symm
        subst hs1
        subst hs2
        exact ⟨ih1.mpr h1, ih2.mpr h2⟩
  | star r ih =>
      exact ⟨fun _ => .starNil, fun _ => rfl⟩

/-- Inversion for a nonempty word matching `star r`: a nonempty first
iteration can always be split off. -/
theorem star_inv {rr : Rgx} {l : List Char} (h : RgxMatch rr l) :
    ∀ r : Rgx, rr = .star r → l ≠ [] →
      ∃ s1 s2, l = s1 ++ s2 ∧ s1 ≠ [] ∧ RgxMatch r s1 ∧ RgxMatch (.star r) s2 := by
  induction h with
  | eps => exact fun r hr _ => Rgx.noConfusion hr
  | pred _ => exact fun r hr _ => Rgx.noConfusion hr
  | altL _ _ => exact fun r hr _ => Rgx.noConfusion hr
  | altR _ _ => exact fun r hr _ => Rgx.noConfusion hr
  | cat _ _ _ _ => exact fun r hr _ => Rgx.noConfusion hr
  | starNil => exact fun r _ hl => absurd rfl hl
  | @starCons r0 s1 s2 h1 h2 ih1 ih2 =>
      intro r hr hl
      injection hr with hr2
      subst hr2
      by_cases h1nil : s1 = []
      · subst h1nil
        exact ih2 _ rfl (by simpa using hl)
      · exact ⟨s1, s2, rfl, h1nil, h1, h2⟩

/-- Correctness of the Brzozowski derivative: the derivative by `c`
matches `s` exactly when the original expression matches `c :: s`. -/
theorem rderiv_iff (r : Rgx) (c : Char) (s : List Char) :
    RgxMatch (rderiv c r) s ↔ RgxMatch r (c :: s) := by
  induction r generalizing s with
  | fail =>
      exact ⟨fun h => (fail_inv h).elim, fun h => (fail_inv h).elim⟩
  | eps =>
      refine ⟨fun h => (fail_inv h).elim, fun h => ?_⟩
      exact absurd (eps_inv h) (by simp)
  | pred p =>
      by_cases hp : p c = true
      · simp only [rderiv, hp, if_true]
        constructor
        · intro h
          rw [eps_inv h]
          exact .pred hp
        · intro h
          obtain ⟨c2, hc2, _⟩ := pred_inv h
          obtain ⟨rfl, rfl⟩ := List.cons_eq_cons.mp hc2
          exact .eps
      · simp only [rderiv, hp, if_false]
        refine ⟨fun h => (fail_inv h).elim, fun h => ?_⟩
        obtain ⟨c2, hc2, hpc2⟩ := pred_inv h
        obtain ⟨rfl, -⟩ := List.cons_eq_cons.mp hc2
        exact absurd hpc2 hp
  | alt r1 r2 ih1 ih2 =>
      simp only [rderiv]
      constructor
      · intro h
        rcases alt_inv h with h | h
        · exact .altL ((ih1 _).mp h)
        · exact .altR ((ih2 _).mp h)
      · intro h
        rcases alt_inv h with h | h
        · exact .altL ((ih1 _).mpr h)
        · exact .altR ((ih2 _).mpr h)
  | cat r1 r2 ih1 ih2 =>
      by_cases hn : nullable r1 = true
      · simp only [rderiv, hn, if_true]
        constructor
        · intro h
          rcases alt_inv h with h | h
          · obtain ⟨s1, s2, rfl, ha, hb⟩ := cat_inv h
            exact @RgxMatch.cat _ _ (c :: s1) _ ((ih1 _).mp ha) hb
          · exact @RgxMatch.cat _ _ [] _ ((nullable_iff r1).mp hn) ((ih2 _).mp h)
        · intro h
          obtain ⟨s1, s2, heq, ha, hb⟩ := cat_inv h
          rcases s1 with _ | ⟨b, s1⟩
          · rw [List.nil_append] at heq
            rw [← heq] at hb
            exact .altR ((ih2 _).mpr hb)
          · obtain ⟨rfl, rfl⟩ := List.cons_eq_cons.mp heq
            exact .altL (RgxMatch.cat ((ih1 _).mpr ha) hb)
      · simp only [rderiv, hn, if_false]
        constructor
        · intro h
          obtain ⟨s1, s2, rfl, ha, hb⟩ := cat_inv h
          exact @RgxMatch.cat _ _ (c :: s1) _ ((ih1 _).mp ha) hb
        · intro h
          obtain ⟨s1, s2, heq, ha, hb⟩ := cat_inv h
          rcases s1 with _ | ⟨b, s1⟩
          · exact absurd ((nullable_iff r1).mpr ha) hn
          · obtain ⟨rfl, rfl⟩ := List.cons_eq_cons.mp heq
            exact RgxMatch.cat ((ih1 _).mpr ha) hb
  | star r ih =>
      simp only [rderiv]
      constructor
      · intro h
        obtain ⟨s1, s2, rfl, ha, hb⟩ := cat_inv h
        exact @RgxMatch.starCons _ (c :: s1) _ ((ih _).mp ha) hb
      · intro h
        obtain ⟨s1, s2, heq, hne, ha, hb⟩ :=
          star_inv h r rfl (by simp)
        rcases s1 with _ | ⟨b, s1⟩
        · exact absurd rfl hne
        · obtain ⟨rfl, rfl⟩ := List.cons_eq_cons.mp heq
          exact RgxMatch.cat ((ih _).mpr ha) hb

/-- `matchHere` is sound and complete: it reports exactly whether some
prefix of the input matches. -/
theorem matchHere_iff (r : Rgx) (s : List Char) :
    matchHere r s = true ↔ ∃ t u, s = t ++ u ∧ RgxMatch r t := by
  induction s generalizing r with
  | nil =>
      simp only [matchHere]
      constructor
      · intro h
        exact ⟨[], [], rfl, (nullable_iff r).mp h⟩
      · rintro ⟨t, u, heq, ht⟩
        obtain ⟨rfl, rfl⟩ := List.append_eq_nil.mp heq.symm
        exact (nullable_iff r).mpr ht
  | cons c s ih =>
      simp only [matchHere, Bool.or_eq_true]
      constructor
      · rintro (h | h)
        · exact ⟨[], c :: s, rfl, (nullable_iff r).mp h⟩
        · obtain ⟨t, u, rfl, ht⟩ := ih (rderiv c r) |>.mp h
          exact ⟨c :: t, u, rfl, (rderiv_iff r c t).mp ht⟩
      · rintro ⟨t, u, heq, ht⟩
        rcases t with _ | ⟨b, t⟩
        · rw [List.nil_append] at heq
          exact Or.inl ((nullable_iff r).mpr ht)
        · obtain ⟨rfl, rfl⟩ := List.cons_eq_cons.mp heq
          exact Or.inr ((ih (rderiv c r)).mpr
            ⟨t, u, rfl, (rderiv_iff r c t).mpr ht⟩)

/-- `reSearch` is sound and complete for `re.search`: it reports
exactly whether the expression matches some contiguous slice. -/
theorem reSearch_iff (r : Rgx) (s : List Char) :
    reSearch r s = true ↔ SearchMatch r s := by
  induction s with
  | nil =>
      simp only [reSearch, SearchMatch]
      constructor
      · intro h
        exact ⟨[], [], [], rfl, (nullable_iff r).mp h⟩
      · rintro ⟨pre, mid, post, heq, hm⟩
        obtain ⟨h1, hpost⟩ := List.append_eq_nil.mp heq.symm
        obtain ⟨hpre, hmid⟩ := List.append_eq_nil.mp h1
        subst hmid
        exact (nullable_iff r).mpr hm
  | cons c t ih =>
      simp only [reSearch, Bool.or_eq_true]
      constructor
      · rintro (h | h)
        · obtain ⟨mid, post, heq, hm⟩ := (matchHere_iff r (c :: t)).mp h
          exact ⟨[], mid, post, by simpa using heq, hm⟩
        · obtain ⟨pre, mid, post, rfl, hm⟩ := ih.mp h
          exact ⟨c :: pre, mid, post, rfl, hm⟩
      · rintro ⟨pre, mid, post, heq, hm⟩
        rcases pre with _ | ⟨b, pre⟩
        · rw [List.nil_append] at heq
          exact Or.inl ((matchHere_iff r (c :: t)).mpr ⟨mid, post, heq, hm⟩)
        · obtain ⟨rfl, rfl⟩ := List.cons_eq_cons.mp (by simpa using heq)
          exact Or.inr (ih.mpr ⟨pre, mid, post, by simp, hm⟩)

/-- C9: `validate_command` accepts everything in autonomous posture; in
restricted posture it returns false exactly when one of the five blocked
patterns matches somewhere in the command (in the declarative regex
semantics), and true otherwise.  The concrete conjuncts replay the
repository's own test vectors. -/
theorem validate_command_spec :
    (∀ command : List Char, validate_command "autonomous" command = true) ∧
    (∀ command : List Char,
      validate_command "restricted" command = false ↔
        ∃ p ∈ BLOCKED_PATTERNS, SearchMatch p command) ∧
    validate_command "restricted" "rm -rf /".data = false ∧
    validate_command "restricted" ":(){ :|:& };:".data = false ∧
    validate_command "restricted" "ls -la".data = true ∧
    validate_command "autonomous" "rm -rf /".data = true := by
  refine ⟨fun command => rfl, ?_, by decide, by decide, by decide, by decide⟩
  intro command
  have hmode : (("restricted" : String) == "autonomous") = false := by decide
  simp only [validate_command, hmode, Bool.false_eq_true, if_false]
  constructor
  · intro h
    by_cases hany : (BLOCKED_PATTERNS.any fun p => reSearch p command) = true
    · rw [List.any_eq_true] at hany
      obtain ⟨p, hp, hs⟩ := hany
      exact ⟨p, hp, (reSearch_iff p command).mp hs⟩
    · rw [if_neg hany] at h
      exact absurd h (by simp)
  · rintro ⟨p, hp, hm⟩
    have hany : (BLOCKED_PATTERNS.any fun p => reSearch p command) = true :=
      List.any_eq_true.mpr ⟨p, hp, (reSearch_iff p command).mpr hm⟩
    rw [if_pos hany]

/-- The digit scanner stops immediately on a non-digit head. -/
theorem parseDigits_stop (acc : Nat) (rest : List Char)
    (h : startsDigit rest = false) : parseDigits acc rest = (acc, rest) := by
  cases rest with
  | nil => rfl
  | cons c t =>
      simp only [startsDigit] at h
      simp [parseDigits, h]

/-- `hexVal` inverts `hexDig` on the hexadecimal range. -/
theorem hexVal_hexDig (d : Nat) (h : d < 16) : hexVal (hexDig d) = some d := by
  interval_cases d <;> rfl

/-- Digit characters are digits. -/
theorem digitChar_isDig (d : Nat) (h : d < 10) : isDig (digitChar d) = true := by
  interval_cases d <;> rfl

/-- Code of a digit character. -/
theorem digitChar_toNat (d : Nat) (h : d < 10) : (digitChar d).toNat = 48 + d := by
  interval_cases d <;> rfl

/-- The decimal rendering is nonempty and starts with a digit. -/
theorem natCharsAux_shape (fuel m : Nat) (h : m < fuel) :
    ∃ c t, natCharsAux fuel m = c :: t ∧ isDig c = true := by
  induction fuel generalizing m with
  | zero => omega
  | succ fuel ih =>
      by_cases hm : m < 10
      · exact ⟨digitChar m, [], by simp [natCharsAux, hm], digitChar_isDig m hm⟩
      · obtain ⟨c, t, heq, hc⟩ := ih (m / 10) (by omega)
        exact ⟨c, t ++ [digitChar (m % 10)], by simp [natCharsAux, hm, heq], hc⟩

/-- Scanning the decimal rendering accumulates exactly the rendered
number. -/
theorem parseDigits_natCharsAux (fuel m acc : Nat) (rest : List Char)
    (h : m < fuel) :
    parseDigits acc (natCharsAux fuel m ++ rest) =
      parseDigits (acc * 10 ^ (natCharsAux fuel m).length + m) rest := by
  induction fuel generalizing m acc rest with
  | zero => omega
  | succ fuel ih =>
      by_cases hm : m < 10
      · simp only [natCharsAux, if_pos hm, List.singleton_append,
          List.length_singleton, pow_one]
        simp [parseDigits, digitChar_isDig m hm, digitChar_toNat m hm]
      · simp only [natCharsAux, if_neg hm, List.append_assoc,
          List.singleton_append]
        rw [ih (m / 10) acc (digitChar (m % 10) :: rest) (by omega)]
        simp only [parseDigits, digitChar_isDig (m % 10) (by omega), if_true,
          digitChar_toNat (m % 10) (by omega), List.length_append,
          List.length_singleton, pow_succ, ← Nat.mul_assoc]
        congr 1
        generalize acc * 10 ^ (natCharsAux fuel (m / 10)).length = A
        omega

/-- `natChars` is nonempty and starts with a digit. -/
theorem natChars_shape (m : Nat) :
    ∃ c t, natChars m = c :: t ∧ isDig c = true :=
  natCharsAux_shape (m + 1) m (by omega)

/-- Scanning `natChars m` followed by a non-digit yields `m` exactly. -/
theorem parseDigits_natChars (m : Nat) (rest : List Char)
    (h : startsDigit rest = false) :
    parseDigits 0 (natChars m ++ rest) = (m, rest) := by
  unfold natChars
  rw [parseDigits_natCharsAux (m + 1) m 0 rest (by omega)]
  rw [parseDigits_stop _ rest h]
  simp

/-- A digit character is none of the scanner's structural characters and
is not JSON whitespace. -/
theorem isDig_facts (c : Char) (h : isDig c = true) :
    c ≠ '-' ∧ c ≠ '"' ∧ c ≠ '[' ∧ c ≠ '{' ∧ c ≠ 'n' ∧ c ≠ 't' ∧ c ≠ 'f' ∧
      c ≠ ']' ∧ c ≠ '}' ∧ jsonWs c = false := by
  simp only [isDig, Bool.and_eq_true, decide_eq_true_eq] at h
  obtain ⟨h1, h2⟩ := h
  refine ⟨?_, ?_, ?_, ?_, ?_, ?_, ?_, ?_, ?_, ?_⟩
  · intro hrfl; rw [hrfl] at h1; exact absurd h1 (by decide)
  · intro hrfl; rw [hrfl] at h1; exact absurd h1 (by decide)
  · intro hrfl; rw [hrfl] at h2; exact absurd h2 (by decide)
  · intro hrfl; rw [hrfl] at h2; exact absurd h2 (by decide)
  · intro hrfl; rw [hrfl] at h2; exact absurd h2 (by decide)
  · intro hrfl; rw [hrfl] at h2; exact absurd h2 (by decide)
  · intro hrfl; rw [hrfl] at h2; exact absurd h2 (by decide)
  · intro hrfl; rw [hrfl] at h2; exact absurd h2 (by decide)
  · intro hrfl; rw [hrfl] at h2; exact absurd h2 (by decide)
  · rcases hws : jsonWs c
    · rfl
    · simp only [jsonWs, Bool.or_eq_true, beq_iff_eq] at hws
      rcases hws with ((rfl | rfl) | rfl) | rfl <;> exact absurd h1 (by decide)

/-- `skipWs` is the identity on a non-whitespace head. -/
theorem skipWs_cons (c : Char) (l : List Char) (h : jsonWs c = false) :
    skipWs (c :: l) = c :: l := by
  simp [skipWs, List.dropWhile_cons, h]

/-- `skipWs` absorbs a leading space. -/
theorem skipWs_space (l : List Char) : skipWs (' ' :: l) = skipWs l := by
  simp [skipWs, List.dropWhile_cons, jsonWs]

/-- The value scanner absorbs a leading space. -/
theorem parseVal_space (fuel : Nat) (X : List Char) :
    parseVal fuel (' ' :: X) = parseVal fuel X := by
  cases fuel with
  | zero => rfl
  | succ fuel => simp only [parseVal, skipWs_space]

/-- Scanning the rendering of an integer followed by a non-digit yields
the integer exactly. -/
theorem parseNum_intChars (n : Int) (rest : List Char)
    (h : startsDigit rest = false) :
    parseNum (intChars n ++ rest) = some (n, rest) := by
  by_cases hn : n < 0
  · simp only [intChars, if_pos hn, List.cons_append, parseNum, if_pos rfl]
    obtain ⟨c, t, heq, hc⟩ := natChars_shape (-n).toNat
    have hsd : startsDigit (natChars (-n).toNat ++ rest) = true := by
      rw [heq]
      simpa [startsDigit] using hc
    rw [hsd]
    simp only [if_true, parseDigits_natChars _ rest h]
    have : (Int.ofNat (-n).toNat) = -n := by
      rw [Int.ofNat_eq_natCast]
      omega
    rw [this]
    simp
  · simp only [intChars, if_neg hn]
    obtain ⟨c, t, heq, hc⟩ := natChars_shape n.toNat
    obtain ⟨hne, _⟩ := isDig_facts c hc
    rw [heq]
    simp only [List.cons_append, parseNum, if_neg hne, hc, if_true]
    have hback : c :: (t ++ rest) = natChars n.toNat ++ rest := by
      rw [heq]
      rfl
    rw [hback, parseDigits_natChars _ rest h]
    have : (Int.ofNat n.toNat) = n := by
      rw [Int.ofNat_eq_natCast]
      omega
    rw [this]

/-- The validity invariant of `Char`: code points avoid the surrogate
range and the upper bound. -/
theorem char_toNat_valid (c : Char) :
    c.toNat < 0xd800 ∨ (0xdfff < c.toNat ∧ c.toNat < 0x110000) := c.valid

/-- `hex4Val` inverts the four-digit hexadecimal rendering. -/
theorem hex4Val_hexDig (m : Nat) (h : m < 0x10000) :
    hex4Val (hexDig (m / 4096 % 16)) (hexDig (m / 256 % 16))
      (hexDig (m / 16 % 16)) (hexDig (m % 16)) = some m := by
  simp only [hex4Val, hexVal_hexDig _ (Nat.mod_lt _ (by norm_num))]
  congr 1
  omega

/-- One step of the fuelled string scanner. -/
theorem parseStrF_succ (fuel : Nat) (c : Char) (s2 : List Char) :
    parseStrF (fuel + 1) (c :: s2) =
      if c = '"' then some ([], s2)
      else if c = '\\' then
        match parseEsc s2 with
        | none => none
        | some (c2, s3) => (parseStrF fuel s3).map (fun r => (c2 :: r.1, r.2))
      else (parseStrF fuel s2).map (fun r => (c :: r.1, r.2)) := rfl

/-- Decoding a short escape. -/
theorem parseEsc_simple (e c : Char) (h : unescSimple e = some c) (E : List Char) :
    parseEsc (e :: E) = some (c, E) := by
  by_cases he : e = 'u'
  · subst he
    simp [unescSimple] at h
  · simp only [parseEsc, if_neg he, h]

/-- Scanning the four-digit rendering recovers the code unit. -/
theorem parseU_hex4 (m : Nat) (hm : m < 0x10000) (E : List Char) :
    parseU (hex4 m ++ E) = some (m, E) := by
  simp only [hex4, List.cons_append, List.nil_append, parseU,
    hex4Val_hexDig m hm]

/-- Decoding a `\uXXXX` escape of a non-surrogate BMP code point. -/
theorem parseEsc_u (m : Nat) (hm : m < 0x10000)
    (hsur : ¬(0xd800 ≤ m ∧ m ≤ 0xdbff)) (E : List Char) :
    parseEsc ('u' :: (hex4 m ++ E)) = some (Char.ofNat m, E) := by
  simp only [parseEsc, parseU_hex4 m hm E, hsur, eq_self_iff_true, if_true,
    if_false]

/-- Decoding an escaped surrogate pair into an astral code point. -/
theorem parseEsc_pair (m : Nat) (h1 : 0x10000 ≤ m) (h2 : m < 0x110000)
    (E : List Char) :
    parseEsc ('u' :: (hex4 (0xd800 + (m - 0x10000) / 0x400) ++
      ('\\' :: 'u' :: (hex4 (0xdc00 + (m - 0x10000) % 0x400) ++ E)))) =
      some (Char.ofNat m, E) := by
  have hhi : 0xd800 + (m - 0x10000) / 0x400 < 0x10000 := by omega
  have hlo : 0xdc00 + (m - 0x10000) % 0x400 < 0x10000 := by omega
  have hc1 : 0xd800 ≤ 0xd800 + (m - 0x10000) / 0x400 ∧
      0xd800 + (m - 0x10000) / 0x400 ≤ 0xdbff := by omega
  have hc2 : 0xdc00 ≤ 0xdc00 + (m - 0x10000) % 0x400 ∧
      0xdc00 + (m - 0x10000) % 0x400 ≤ 0xdfff := by omega
  have harith : 0x10000 +
      (0xd800 + (m - 0x10000) / 0x400 - 0xd800) * 0x400 +
      (0xdc00 + (m - 0x10000) % 0x400 - 0xdc00) = m := by omega
  simp only [parseEsc, parseU_hex4 _ hhi, parseU_hex4 _ hlo, hc1, hc2,
    harith, eq_self_iff_true, if_true, and_self]

/-- Every escape is at least one character long. -/
theorem escChar_length_pos (c : Char) : 1 ≤ (escChar c).length := by
  unfold escChar
  split_ifs <;> simp [hex4]

/-- Escaping does not shorten a string. -/
theorem escString_length (s : List Char) : s.length ≤ (escString s).length := by
  induction s with
  | nil => simp [escString]
  | cons c t ih =>
      have := escChar_length_pos c
      simp only [escString, List.length_append, List.length_cons]
      omega

/-- Scanner step: closing quote. -/
theorem parseStrF_quote (fuel : Nat) (E : List Char) :
    parseStrF (fuel + 1) ('"' :: E) = some ([], E) := by
  simp only [parseStrF_succ, eq_self_iff_true, if_true]

/-- Scanner step: short escape. -/
theorem parseStrF_esc (fuel : Nat) (e c2 : Char) (he : unescSimple e = some c2)
    (E : List Char) :
    parseStrF (fuel + 1) ('\\' :: e :: E) =
      (parseStrF fuel E).map (fun r => (c2 :: r.1, r.2)) := by
  simp only [parseStrF_succ, if_neg (show ¬(('\\' : Char) = '"') by decide),
    if_pos (rfl : ('\\' : Char) = '\\'), parseEsc_simple e c2 he, if_true,
    eq_self_iff_true]

/-- Scanner step: `\uXXXX` escape of a non-surrogate BMP code point. -/
theorem parseStrF_u (fuel m : Nat) (hm : m < 0x10000)
    (hsur : ¬(0xd800 ≤ m ∧ m ≤ 0xdbff)) (E : List Char) :
    parseStrF (fuel + 1) ('\\' :: 'u' :: (hex4 m ++ E)) =
      (parseStrF fuel E).map (fun r => (Char.ofNat m :: r.1, r.2)) := by
  simp only [parseStrF_succ, if_neg (show ¬(('\\' : Char) = '"') by decide),
    if_pos (rfl : ('\\' : Char) = '\\'), parseEsc_u m hm hsur, if_true,
    eq_self_iff_true]

/-- Scanner step: escaped surrogate pair. -/
theorem parseStrF_pair (fuel m : Nat) (h1 : 0x10000 ≤ m) (h2 : m < 0x110000)
    (E : List Char) :
    parseStrF (fuel + 1) ('\\' :: 'u' :: (hex4 (0xd800 + (m - 0x10000) / 0x400) ++
        ('\\' :: 'u' :: (hex4 (0xdc00 + (m - 0x10000) % 0x400) ++ E)))) =
      (parseStrF fuel E).map (fun r => (Char.ofNat m :: r.1, r.2)) := by
  rw [parseStrF_succ, if_neg (show ¬(('\\' : Char) = '"') by decide),
    if_pos (rfl : ('\\' : Char) = '\\'), parseEsc_pair m h1 h2]

/-- Scanner step: literal character. -/
theorem parseStrF_lit (fuel : Nat) (c : Char) (hq : ¬c = '"') (hb : ¬c = '\\')
    (E : List Char) :
    parseStrF (fuel + 1) (c :: E) =
      (parseStrF fuel E).map (fun r => (c :: r.1, r.2)) := by
  simp only [parseStrF_succ, if_neg hq, if_neg hb]

/-- The fuelled scanner inverts the `ensure_ascii` escaper whenever the
fuel exceeds the number of decoded characters. -/
theorem parseStrF_dump (s : List Char) : ∀ (fuel : Nat) (rest : List Char),
    s.length < fuel →
    parseStrF fuel (escString s ++ ('"' :: rest)) = some (s, rest) := by
  induction s with
  | nil =>
      intro fuel rest hf
      rcases fuel with _ | fuel
      · omega
      · rw [show escString [] ++ ('"' :: rest) = '"' :: rest from rfl]
        exact parseStrF_quote fuel rest
  | cons c t ih =>
      intro fuel rest hf
      rcases fuel with _ | fuel
      · omega
      rw [escString, List.append_assoc]
      have ht : t.length < fuel := by
        simp only [List.length_cons] at hf
        omega
      by_cases h1 : c = '\\'
      · subst h1
        rw [show escChar '\\' = ['\\', '\\'] from rfl]
        rw [show (['\\', '\\'] : List Char) ++ (escString t ++ ('"' :: rest)) =
          '\\' :: '\\' :: (escString t ++ ('"' :: rest)) from rfl]
        rw [parseStrF_esc fuel '\\' '\\' rfl, ih fuel rest ht]
        rfl
      by_cases h2 : c = '"'
      · subst h2
        rw [show escChar '"' = ['\\', '"'] from rfl]
        rw [show (['\\', '"'] : List Char) ++ (escString t ++ ('"' :: rest)) =
          '\\' :: '"' :: (escString t ++ ('"' :: rest)) from rfl]
        rw [parseStrF_esc fuel '"' '"' rfl, ih fuel rest ht]
        rfl
      by_cases h3 : c = '\x08'
      · subst h3
        rw [show escChar '\x08' = ['\\', 'b'] from rfl]
        rw [show (['\\', 'b'] : List Char) ++ (escString t ++ ('"' :: rest)) =
          '\\' :: 'b' :: (escString t ++ ('"' :: rest)) from rfl]
        rw [parseStrF_esc fuel 'b' '\x08' rfl, ih fuel rest ht]
        rfl
      by_cases h4 : c = '\x0c'
      · subst h4
        rw [show escChar '\x0c' = ['\\', 'f'] from rfl]
        rw [show (['\\', 'f'] : List Char) ++ (escString t ++ ('"' :: rest)) =
          '\\' :: 'f' :: (escString t ++ ('"' :: rest)) from rfl]
        rw [parseStrF_esc fuel 'f' '\x0c' rfl, ih fuel rest ht]
        rfl
      by_cases h5 : c = '\n'
      · subst h5
        rw [show escChar '\n' = ['\\', 'n'] from rfl]
        rw [show (['\\', 'n'] : List Char) ++ (escString t ++ ('"' :: rest)) =
          '\\' :: 'n' :: (escString t ++ ('"' :: rest)) from rfl]
        rw [parseStrF_esc fuel 'n' '\n' rfl, ih fuel rest ht]
        rfl
      by_cases h6 : c = '\r'
      · subst h6
        rw [show escChar '\r' = ['\\', 'r'] from rfl]
        rw [show (['\\', 'r'] : List Char) ++ (escString t ++ ('"' :: rest)) =
          '\\' :: 'r' :: (escString t ++ ('"' :: rest)) from rfl]
        rw [parseStrF_esc fuel 'r' '\r' rfl, ih fuel rest ht]
        rfl
      by_cases h7 : c = '\t'
      · subst h7
        rw [show escChar '\t' = ['\\', 't'] from rfl]
        rw [show (['\\', 't'] : List Char) ++ (escString t ++ ('"' :: rest)) =
          '\\' :: 't' :: (escString t ++ ('"' :: rest)) from rfl]
        rw [parseStrF_esc fuel 't' '\t' rfl, ih fuel rest ht]
        rfl
      by_cases h8 : c.toNat < 0x20 ∨ 0x7e < c.toNat
      · by_cases h9 : c.toNat < 0x10000
        · have hsur : ¬(0xd800 ≤ c.toNat ∧ c.toNat ≤ 0xdbff) := by
            rcases char_toNat_valid c with h | h <;> omega
          rw [show escChar c = '\\' :: 'u' :: hex4 c.toNat by
            simp only [escChar, if_neg h1, if_neg h2, if_neg h3, if_neg h4,
              if_neg h5, if_neg h6, if_neg h7, if_pos h8, if_pos h9]]
          rw [show ('\\' :: 'u' :: hex4 c.toNat) ++ (escString t ++ ('"' :: rest)) =
            '\\' :: 'u' :: (hex4 c.toNat ++ (escString t ++ ('"' :: rest))) from rfl]
          rw [parseStrF_u fuel c.toNat h9 hsur, ih fuel rest ht]
          simp only [Option.map_some', Char.ofNat_toNat]
        · have hlb : 0x10000 ≤ c.toNat := by omega
          have hub : c.toNat < 0x110000 := by
            rcases char_toNat_valid c with h | h <;> omega
          rw [show escChar c = ('\\' :: 'u' :: hex4 (0xd800 + (c.toNat - 0x10000) / 0x400)) ++
              ('\\' :: 'u' :: hex4 (0xdc00 + (c.toNat - 0x10000) % 0x400)) by
            simp only [escChar, if_neg h1, if_neg h2, if_neg h3, if_neg h4,
              if_neg h5, if_neg h6, if_neg h7, if_pos h8, if_neg h9]]
          rw [show (('\\' :: 'u' :: hex4 (0xd800 + (c.toNat - 0x10000) / 0x400)) ++
              ('\\' :: 'u' :: hex4 (0xdc00 + (c.toNat - 0x10000) % 0x400))) ++
              (escString t ++ ('"' :: rest)) =
            '\\' :: 'u' :: (hex4 (0xd800 + (c.toNat - 0x10000) / 0x400) ++
              ('\\' :: 'u' :: (hex4 (0xdc00 + (c.toNat - 0x10000) % 0x400) ++
                (escString t ++ ('"' :: rest))))) by
            simp only [List.cons_append, List.append_assoc]]
          rw [parseStrF_pair fuel c.toNat hlb hub, ih fuel rest ht]
          simp only [Option.map_some', Char.ofNat_toNat]
      · rw [show escChar c = [c] by
          simp only [escChar, if_neg h1, if_neg h2, if_neg h3, if_neg h4,
            if_neg h5, if_neg h6, if_neg h7, if_neg h8]]
        rw [show ([c] : List Char) ++ (escString t ++ ('"' :: rest)) =
          c :: (escString t ++ ('"' :: rest)) from rfl]
        rw [parseStrF_lit fuel c h2 h1, ih fuel rest ht]
        rfl

/-- The string scanner inverts the `ensure_ascii` escaper: scanning the
escaped body followed by the closing quote recovers the original string
and leaves the remainder untouched. -/
theorem parseStr_dump (s rest : List Char) :
    parseStr (escString s ++ ('"' :: rest)) = some (s, rest) := by
  unfold parseStr
  apply parseStrF_dump
  have h1 := escString_length s
  simp only [List.length_append, List.length_cons]
  omega

/-- `Option.bind` on an explicit `some` applies the continuation. -/
theorem someBind {A B : Type} (a : A) (f : A → Option B) :
    (Option.some a).bind f = f a := rfl

/-- Every value has positive size. -/
theorem sizeV_pos (v : JValue) : 1 ≤ sizeV v := by
  cases v <;> simp only [sizeV] <;> omega

/-- Every item list has positive size. -/
theorem sizeItems_pos (l : JItems) : 1 ≤ sizeItems l := by
  cases l <;> simp only [sizeItems] <;> omega

/-- Every member list has positive size. -/
theorem sizeMembers_pos (m : JMembers) : 1 ≤ sizeMembers m := by
  cases m <;> simp only [sizeMembers] <;> omega

/-- One value-scanner step on the `null` keyword. -/
theorem parseVal_null (fuel : Nat) (rest : List Char) :
    parseVal (fuel + 1) ("null".data ++ rest) = some (.jnull, rest) := rfl

/-- One value-scanner step on the `true` keyword. -/
theorem parseVal_true (fuel : Nat) (rest : List Char) :
    parseVal (fuel + 1) ("true".data ++ rest) = some (.jbool true, rest) := rfl

/-- One value-scanner step on the `false` keyword. -/
theorem parseVal_false (fuel : Nat) (rest : List Char) :
    parseVal (fuel + 1) ("false".data ++ rest) = some (.jbool false, rest) := rfl

/-- One value-scanner step on a string head. -/
theorem parseVal_quote (fuel : Nat) (S : List Char) :
    parseVal (fuel + 1) ('"' :: S) =
      (parseStr S).map (fun r => (JValue.jstr r.1, r.2)) := rfl

/-- One value-scanner step on an array head. -/
theorem parseVal_arr (fuel : Nat) (S : List Char) :
    parseVal (fuel + 1) ('[' :: S) =
      (match splitHead ']' (skipWs S) with
       | some s3 => some (.jarr .nil, s3)
       | none =>
           (parseVal fuel (skipWs S)).bind (fun rv =>
             (parseItems fuel rv.2).bind (fun ri =>
               some (.jarr (.cons rv.1 ri.1), ri.2)))) := rfl

/-- One value-scanner step on an object head. -/
theorem parseVal_obj (fuel : Nat) (S : List Char) :
    parseVal (fuel + 1) ('{' :: S) =
      (match splitHead '}' (skipWs S) with
       | some s3 => some (.jobj .nil, s3)
       | none =>
           (splitHead '"' (skipWs S)).bind (fun s3 =>
             (parseStr s3).bind (fun rk =>
               (splitHead ':' (skipWs rk.2)).bind (fun s5 =>
                 (parseVal fuel s5).bind (fun rv =>
                   (parseMembers fuel rv.2).bind (fun rm =>
                     some (.jobj (.cons rk.1 rv.1 rm.1), rm.2))))))) := rfl

/-- One value-scanner step on a minus sign. -/
theorem parseVal_dash (fuel : Nat) (S : List Char) :
    parseVal (fuel + 1) ('-' :: S) =
      (parseNum ('-' :: S)).map (fun r => (JValue.jnum r.1, r.2)) := rfl

/-- One value-scanner step on a digit head. -/
theorem parseVal_digit (fuel : Nat) (c : Char) (S : List Char)
    (h : isDig c = true) :
    parseVal (fuel + 1) (c :: S) =
      (parseNum (c :: S)).map (fun r => (JValue.jnum r.1, r.2)) := by
  obtain ⟨_, h2, h3, h4, h5, h6, h7, _, _, hws⟩ := isDig_facts c h
  simp only [parseVal, skipWs_cons c S hws, if_neg h2, if_neg h3, if_neg h4,
    if_neg h5, if_neg h6, if_neg h7]

/-- One item-scanner step on a closing bracket. -/
theorem parseItems_close (fuel : Nat) (rest : List Char) :
    parseItems (fuel + 1) (']' :: rest) = some (.nil, rest) := rfl

/-- One item-scanner step on a comma. -/
theorem parseItems_comma (fuel : Nat) (S : List Char) :
    parseItems (fuel + 1) (',' :: S) =
      (parseVal fuel S).bind (fun rv =>
        (parseItems fuel rv.2).bind (fun ri =>
          some (JItems.cons rv.1 ri.1, ri.2))) := rfl

/-- One member-scanner step on a closing brace. -/
theorem parseMembers_close (fuel : Nat) (rest : List Char) :
    parseMembers (fuel + 1) ('}' :: rest) = some (.nil, rest) := rfl

/-- One member-scanner step on a comma. -/
theorem parseMembers_comma (fuel : Nat) (S : List Char) :
    parseMembers (fuel + 1) (',' :: S) =
      (splitHead '"' (skipWs S)).bind (fun s3 =>
        (parseStr s3).bind (fun rk =>
          (splitHead ':' (skipWs rk.2)).bind (fun s5 =>
            (parseVal fuel s5).bind (fun rv =>
              (parseMembers fuel rv.2).bind (fun rm =>
                some (JMembers.cons rk.1 rv.1 rm.1, rm.2)))))) := rfl

/-- A serialized value starts with a character that is not whitespace,
not a closing bracket, and not a closing brace. -/
theorem dump_head (v : JValue) (X : List Char) :
    skipWs (dumpVal v ++ X) = dumpVal v ++ X ∧
      splitHead ']' (dumpVal v ++ X) = none ∧
      splitHead '}' (dumpVal v ++ X) = none := by
  cases v with
  | jnull => exact ⟨rfl, rfl, rfl⟩
  | jbool b => cases b <;> exact ⟨rfl, rfl, rfl⟩
  | jstr s => exact ⟨rfl, rfl, rfl⟩
  | jarr items => exact ⟨rfl, rfl, rfl⟩
  | jobj ms => exact ⟨rfl, rfl, rfl⟩
  | jnum n =>
      by_cases hn : n < 0
      · have h : dumpVal (.jnum n) ++ X = '-' :: (natChars (-n).toNat ++ X) := by
          simp [dumpVal, intChars, hn]
        rw [h]
        exact ⟨rfl, rfl, rfl⟩
      · obtain ⟨c, t, heq, hc⟩ := natChars_shape n.toNat
        obtain ⟨_, _, _, _, _, _, _, hne1, hne2, hws⟩ := isDig_facts c hc
        have h : dumpVal (.jnum n) ++ X = c :: (t ++ X) := by
          simp [dumpVal, intChars, hn, heq]
        rw [h]
        refine ⟨skipWs_cons c _ hws, ?_, ?_⟩
        · simp [splitHead, hne1]
        · simp [splitHead, hne2]

/-- The rendering of an array tail never starts with a digit. -/
theorem startsDigit_arrTail (tl : JItems) (rest : List Char) :
    startsDigit (dumpArrTail tl ++ rest) = false := by
  cases tl <;> rfl

/-- The rendering of an object tail never starts with a digit. -/
theorem startsDigit_objTail (tl : JMembers) (rest : List Char) :
    startsDigit (dumpObjTail tl ++ rest) = false := by
  cases tl <;> rfl

/-- Main roundtrip: scanning the serialization of any value, item list
or member list, followed by a remainder that does not start with a
digit, recovers the original structure exactly, whenever the fuel is at
least the structural size. -/
theorem parse_dump_all : ∀ N : Nat,
    (∀ (v : JValue) (fuel : Nat) (rest : List Char),
      sizeV v ≤ N → sizeV v ≤ fuel → startsDigit rest = false →
      parseVal fuel (dumpVal v ++ rest) = some (v, rest)) ∧
    (∀ (l : JItems) (fuel : Nat) (rest : List Char),
      sizeItems l ≤ N → sizeItems l ≤ fuel → startsDigit rest = false →
      parseItems fuel (dumpArrTail l ++ rest) = some (l, rest)) ∧
    (∀ (m : JMembers) (fuel : Nat) (rest : List Char),
      sizeMembers m ≤ N → sizeMembers m ≤ fuel → startsDigit rest = false →
      parseMembers fuel (dumpObjTail m ++ rest) = some (m, rest)) := by
  intro N
  induction N with
  | zero =>
      refine ⟨fun v _ _ h _ _ => absurd h ?_, fun l _ _ h _ _ => absurd h ?_,
        fun m _ _ h _ _ => absurd h ?_⟩
      · have := sizeV_pos v; omega
      · have := sizeItems_pos l; omega
      · have := sizeMembers_pos m; omega
  | succ N ih =>
      obtain ⟨ihV, ihI, ihM⟩ := ih
      refine ⟨?_, ?_, ?_⟩
      · intro v fuel rest hN hfuel hrest
        rcases fuel with _ | fuel
        · exact absurd hfuel (by have := sizeV_pos v; omega)
        cases v with
        | jnull => exact parseVal_null fuel rest
        | jbool b =>
            cases b
            · exact parseVal_false fuel rest
            · exact parseVal_true fuel rest
        | jnum n =>
            by_cases hn : n < 0
            · have hsh : dumpVal (.jnum n) ++ rest =
                  '-' :: (natChars (-n).toNat ++ rest) := by
                simp [dumpVal, intChars, hn]
              have hback : '-' :: (natChars (-n).toNat ++ rest) =
                  intChars n ++ rest := by
                simp [intChars, hn]
              rw [hsh, parseVal_dash fuel _, hback, parseNum_intChars n rest hrest]
              rfl
            · obtain ⟨c, t, heq, hc⟩ := natChars_shape n.toNat
              have hsh : dumpVal (.jnum n) ++ rest = c :: (t ++ rest) := by
                simp [dumpVal, intChars, hn, heq]
              have hback : c :: (t ++ rest) = intChars n ++ rest := by
                simp [intChars, hn, heq]
              rw [hsh, parseVal_digit fuel c _ hc, hback,
                parseNum_intChars n rest hrest]
              rfl
        | jstr s =>
            have hsh : dumpVal (.jstr s) ++ rest =
                '"' :: (escString s ++ ('"' :: rest)) := by
              simp [dumpVal]
            rw [hsh, parseVal_quote fuel _, parseStr_dump s rest]
            rfl
        | jarr items =>
            cases items with
            | nil =>
                show parseVal (fuel + 1) ('[' :: ']' :: rest) =
                  some (.jarr .nil, rest)
                rfl
            | cons v tl =>
                have hsh : dumpVal (.jarr (.cons v tl)) ++ rest =
                    '[' :: (dumpVal v ++ (dumpArrTail tl ++ rest)) := by
                  simp [dumpVal, dumpArrBody]
                rw [hsh, parseVal_arr fuel _]
                obtain ⟨hsk, hsp, _⟩ := dump_head v (dumpArrTail tl ++ rest)
                simp only [hsk, hsp]
                simp only [sizeV, sizeItems] at hN hfuel
                rw [ihV v fuel _ (by omega) (by omega)
                  (startsDigit_arrTail tl rest)]
                simp only [someBind]
                rw [ihI tl fuel rest (by omega) (by omega) hrest]
                rfl
        | jobj members =>
            cases members with
            | nil =>
                show parseVal (fuel + 1) ('{' :: '}' :: rest) =
                  some (.jobj .nil, rest)
                rfl
            | cons k v tl =>
                have hsh : dumpVal (.jobj (.cons k v tl)) ++ rest =
                    '{' :: '"' :: (escString k ++ ('"' :: ':' :: ' ' ::
                      (dumpVal v ++ (dumpObjTail tl ++ rest)))) := by
                  simp [dumpVal, dumpObjBody]
                rw [hsh, parseVal_obj fuel _]
                show (parseStr (escString k ++ ('"' :: ':' :: ' ' ::
                    (dumpVal v ++ (dumpObjTail tl ++ rest))))).bind (fun rk =>
                  (splitHead ':' (skipWs rk.2)).bind (fun s5 =>
                    (parseVal fuel s5).bind (fun rv =>
                      (parseMembers fuel rv.2).bind (fun rm =>
                        some (JValue.jobj (.cons rk.1 rv.1 rm.1), rm.2))))) =
                  some (JValue.jobj (.cons k v tl), rest)
                rw [parseStr_dump k _]
                show (parseVal fuel (' ' ::
                    (dumpVal v ++ (dumpObjTail tl ++ rest)))).bind (fun rv =>
                  (parseMembers fuel rv.2).bind (fun rm =>
                    some (JValue.jobj (JMembers.cons k rv.1 rm.1), rm.2))) =
                  some (JValue.jobj (.cons k v tl), rest)
                rw [parseVal_space fuel _]
                simp only [sizeV, sizeMembers] at hN hfuel
                rw [ihV v fuel _ (by omega) (by omega)
                  (startsDigit_objTail tl rest)]
                simp only [someBind]
                rw [ihM tl fuel rest (by omega) (by omega) hrest]
                rfl
      · intro l fuel rest hN hfuel hrest
        rcases fuel with _ | fuel
        · exact absurd hfuel (by have := sizeItems_pos l; omega)
        cases l with
        | nil =>
            show parseItems (fuel + 1) (']' :: rest) = some (.nil, rest)
            rfl
        | cons v tl =>
            have hsh : dumpArrTail (.cons v tl) ++ rest =
                ',' :: ' ' :: (dumpVal v ++ (dumpArrTail tl ++ rest)) := by
              simp [dumpArrTail]
            rw [hsh, parseItems_comma fuel _, parseVal_space fuel _]
            simp only [sizeItems] at hN hfuel
            rw [ihV v fuel _ (by omega) (by omega) (startsDigit_arrTail tl rest)]
            simp only [someBind]
            rw [ihI tl fuel rest (by omega) (by omega) hrest]
            rfl
      · intro m fuel rest hN hfuel hrest
        rcases fuel with _ | fuel
        · exact absurd hfuel (by have := sizeMembers_pos m; omega)
        cases m with
        | nil =>
            show parseMembers (fuel + 1) ('}' :: rest) = some (.nil, rest)
            rfl
        | cons k v tl =>
            have hsh : dumpObjTail (.cons k v tl) ++ rest =
                ',' :: ' ' :: '"' :: (escString k ++ ('"' :: ':' :: ' ' ::
                  (dumpVal v ++ (dumpObjTail tl ++ rest)))) := by
              simp [dumpObjTail]
            rw [hsh, parseMembers_comma fuel _]
            show (parseStr (escString k ++ ('"' :: ':' :: ' ' ::
                (dumpVal v ++ (dumpObjTail tl ++ rest))))).bind (fun rk =>
              (splitHead ':' (skipWs rk.2)).bind (fun s5 =>
                (parseVal fuel s5).bind (fun rv =>
                  (parseMembers fuel rv.2).bind (fun rm =>
                    some (JMembers.cons rk.1 rv.1 rm.1, rm.2))))) =
              some (JMembers.cons k v tl, rest)
            rw [parseStr_dump k _]
            show (parseVal fuel (' ' ::
                (dumpVal v ++ (dumpObjTail tl ++ rest)))).bind (fun rv =>
              (parseMembers fuel rv.2).bind (fun rm =>
                some (JMembers.cons k rv.1 rm.1, rm.2))) =
              some (JMembers.cons k v tl, rest)
            rw [parseVal_space fuel _]
            simp only [sizeMembers] at hN hfuel
            rw [ihV v fuel _ (by omega) (by omega) (startsDigit_objTail tl rest)]
            simp only [someBind]
            rw [ihM tl fuel rest (by omega) (by omega) hrest]
            rfl

/-- Every serialization is nonempty. -/
theorem dumpVal_length_pos (v : JValue) : 1 ≤ (dumpVal v).length := by
  cases v with
  | jnull => simp [dumpVal]
  | jbool b => cases b <;> simp [dumpVal]
  | jstr s => simp [dumpVal]
  | jarr l => simp [dumpVal]
  | jobj m => simp [dumpVal]
  | jnum n =>
      by_cases hn : n < 0
      · simp [dumpVal, intChars, hn]
      · obtain ⟨c, t, heq, _⟩ := natChars_shape n.toNat
        simp [dumpVal, intChars, hn, heq]

/-- Every array-tail rendering is nonempty. -/
theorem dumpArrTail_length_pos (l : JItems) : 1 ≤ (dumpArrTail l).length := by
  cases l <;> simp [dumpArrTail]

/-- Every object-tail rendering is nonempty. -/
theorem dumpObjTail_length_pos (m : JMembers) : 1 ≤ (dumpObjTail m).length := by
  cases m <;> simp [dumpObjTail]

/-- The structural size is bounded by the serialization length plus
one, so `jloads`, which budgets `length + 1` fuel, always has enough. -/
theorem size_le_dump : ∀ N : Nat,
    (∀ v : JValue, sizeV v ≤ N → sizeV v ≤ (dumpVal v).length + 1) ∧
    (∀ l : JItems, sizeItems l ≤ N → sizeItems l ≤ (dumpArrTail l).length + 1) ∧
    (∀ m : JMembers, sizeMembers m ≤ N →
      sizeMembers m ≤ (dumpObjTail m).length + 1) := by
  intro N
  induction N with
  | zero =>
      refine ⟨fun v h => absurd h ?_, fun l h => absurd h ?_,
        fun m h => absurd h ?_⟩
      · have := sizeV_pos v; omega
      · have := sizeItems_pos l; omega
      · have := sizeMembers_pos m; omega
  | succ N ih =>
      obtain ⟨ihV, ihI, ihM⟩ := ih
      refine ⟨?_, ?_, ?_⟩
      · intro v hN
        cases v with
        | jnull => simp only [sizeV]; omega
        | jbool b => simp only [sizeV]; omega
        | jnum n => simp only [sizeV]; omega
        | jstr s => simp only [sizeV]; omega
        | jarr items =>
            cases items with
            | nil =>
                have h1 := dumpVal_length_pos (JValue.jarr .nil)
                simp only [sizeV, sizeItems]
                omega
            | cons v tl =>
                simp only [sizeV, sizeItems] at hN ⊢
                have h1 := ihV v (by omega)
                have h2 := ihI tl (by omega)
                have h3 := dumpVal_length_pos v
                have h4 := dumpArrTail_length_pos tl
                simp only [dumpVal, dumpArrBody, List.length_cons,
                  List.length_append]
                omega
        | jobj members =>
            cases members with
            | nil =>
                have h1 := dumpVal_length_pos (JValue.jobj .nil)
                simp only [sizeV, sizeMembers]
                omega
            | cons k v tl =>
                simp only [sizeV, sizeMembers] at hN ⊢
                have h1 := ihV v (by omega)
                have h2 := ihM tl (by omega)
                have h3 := dumpVal_length_pos v
                have h4 := dumpObjTail_length_pos tl
                simp only [dumpVal, dumpObjBody, List.length_cons,
                  List.length_append]
                omega
      · intro l hN
        cases l with
        | nil =>
            simp only [show sizeItems JItems.nil = 1 from rfl,
              show (dumpArrTail JItems.nil).length = 1 from rfl]
            omega
        | cons v tl =>
            simp only [sizeItems] at hN ⊢
            have h1 := ihV v (by omega)
            have h2 := ihI tl (by omega)
            simp only [dumpArrTail, List.length_cons, List.length_append]
            omega
      · intro m hN
        cases m with
        | nil =>
            simp only [show sizeMembers JMembers.nil = 1 from rfl,
              show (dumpObjTail JMembers.nil).length = 1 from rfl]
            omega
        | cons k v tl =>
            simp only [sizeMembers] at hN ⊢
            have h1 := ihV v (by omega)
            have h2 := ihM tl (by omega)
            simp only [dumpObjTail, List.length_cons, List.length_append]
            omega

/-- Fuel bound instantiated at the value itself. -/
theorem sizeV_le_dump (v : JValue) : sizeV v ≤ (dumpVal v).length + 1 :=
  (size_le_dump (sizeV v)).1 v le_rfl

/-- `json.loads` inverts `json.dumps` on the model. -/
theorem jloads_dump (v : JValue) : jloads (dumpVal v) = some v := by
  unfold jloads
  have h := (parse_dump_all (sizeV v)).1 v ((dumpVal v).length + 1) [] le_rfl
    (sizeV_le_dump v) rfl
  rw [show dumpVal v ++ ([] : List Char) = dumpVal v from by simp] at h
  rw [h]

/-- Hexadecimal digits are ASCII. -/
theorem hexDig_ascii (d : Nat) (h : d < 16) : (hexDig d).toNat < 128 := by
  interval_cases d <;> decide

/-- Decimal digits are ASCII. -/
theorem digitChar_ascii (d : Nat) (h : d < 10) : (digitChar d).toNat < 128 := by
  interval_cases d <;> decide

/-- `ensure_ascii` escaping always yields ASCII output. -/
theorem escChar_ascii (c : Char) : allAscii (escChar c) = true := by
  unfold escChar
  split_ifs with h1 h2 h3 h4 h5 h6 h7 h8 h9
  · rfl
  · rfl
  · rfl
  · rfl
  · rfl
  · rfl
  · rfl
  · simp only [allAscii, hex4, List.all, Bool.and_eq_true, decide_eq_true_eq]
    refine ⟨by decide, by decide, ?_, ?_, ?_, ?_, trivial⟩ <;>
      exact hexDig_ascii _ (by omega)
  · simp only [allAscii, hex4, List.cons_append, List.nil_append, List.all,
      Bool.and_eq_true, decide_eq_true_eq]
    refine ⟨by decide, by decide, ?_, ?_, ?_, ?_, by decide, by decide,
      ?_, ?_, ?_, ?_, trivial⟩ <;> exact hexDig_ascii _ (by omega)
  · simp only [allAscii, List.all, Bool.and_eq_true, decide_eq_true_eq]
    refine ⟨?_, trivial⟩
    omega

/-- `allAscii` distributes over append. -/
theorem allAscii_append (a b : List Char) :
    allAscii (a ++ b) = (allAscii a && allAscii b) := by
  simp [allAscii, List.all_append]

/-- Decimal renderings are ASCII. -/
theorem natCharsAux_ascii (fuel : Nat) : ∀ n : Nat,
    allAscii (natCharsAux fuel n) = true := by
  induction fuel with
  | zero => intro n; rfl
  | succ fuel ih =>
      intro n
      unfold natCharsAux
      split
      · simp only [allAscii, List.all, Bool.and_eq_true, decide_eq_true_eq]
        exact ⟨digitChar_ascii n (by omega), trivial⟩
      · rw [allAscii_append, ih (n / 10)]
        simp only [allAscii, List.all, Bool.and_eq_true, decide_eq_true_eq,
          Bool.true_and]
        exact ⟨digitChar_ascii _ (Nat.mod_lt _ (by norm_num)), trivial⟩

/-- Integer renderings are ASCII. -/
theorem intChars_ascii (n : Int) : allAscii (intChars n) = true := by
  unfold intChars
  split
  · simp only [allAscii, List.all, Bool.and_eq_true, decide_eq_true_eq]
    refine ⟨by decide, ?_⟩
    have := natCharsAux_ascii ((-n).toNat + 1) (-n).toNat
    simpa [natChars, allAscii] using this
  · exact natCharsAux_ascii _ _

/-- Escaped string bodies are ASCII. -/
theorem escString_ascii (s : List Char) : allAscii (escString s) = true := by
  induction s with
  | nil => rfl
  | cons c t ih =>
      rw [show escString (c :: t) = escChar c ++ escString t from rfl,
        allAscii_append, escChar_ascii c, ih]
      rfl

/-- `json.dumps` with `ensure_ascii=True` produces pure-ASCII text at
every level of the structure. -/
theorem dump_ascii : ∀ N : Nat,
    (∀ v : JValue, sizeV v ≤ N → allAscii (dumpVal v) = true) ∧
    (∀ l : JItems, sizeItems l ≤ N → allAscii (dumpArrTail l) = true) ∧
    (∀ m : JMembers, sizeMembers m ≤ N → allAscii (dumpObjTail m) = true) := by
  intro N
  induction N with
  | zero =>
      refine ⟨fun v h => absurd h ?_, fun l h => absurd h ?_,
        fun m h => absurd h ?_⟩
      · have := sizeV_pos v; omega
      · have := sizeItems_pos l; omega
      · have := sizeMembers_pos m; omega
  | succ N ih =>
      obtain ⟨ihV, ihI, ihM⟩ := ih
      refine ⟨?_, ?_, ?_⟩
      · intro v hN
        cases v with
        | jnull => rfl
        | jbool b => cases b <;> rfl
        | jnum n => exact intChars_ascii n
        | jstr s =>
            rw [show dumpVal (.jstr s) = '"' :: (escString s ++ ['"']) from rfl,
              show allAscii ('"' :: (escString s ++ ['"'])) =
                (decide ('"'.toNat < 128) && allAscii (escString s ++ ['"']))
                from rfl,
              allAscii_append, escString_ascii s]
            rfl
        | jarr items =>
            cases items with
            | nil => rfl
            | cons v tl =>
                simp only [sizeV, sizeItems] at hN
                rw [show dumpVal (.jarr (.cons v tl)) =
                    '[' :: (dumpVal v ++ dumpArrTail tl) from rfl,
                  show allAscii ('[' :: (dumpVal v ++ dumpArrTail tl)) =
                    (decide ('['.toNat < 128) &&
                      allAscii (dumpVal v ++ dumpArrTail tl)) from rfl,
                  allAscii_append, ihV v (by omega), ihI tl (by omega)]
                rfl
        | jobj members =>
            cases members with
            | nil => rfl
            | cons k v tl =>
                simp only [sizeV, sizeMembers] at hN
                rw [show dumpVal (.jobj (.cons k v tl)) =
                    '{' :: '"' :: (escString k ++ ('"' :: ':' :: ' ' ::
                      (dumpVal v ++ dumpObjTail tl))) from by
                      simp [dumpVal, dumpObjBody],
                  show allAscii ('{' :: '"' :: (escString k ++ ('"' :: ':' ::
                      ' ' :: (dumpVal v ++ dumpObjTail tl)))) =
                    (decide ('{'.toNat < 128) && (decide ('"'.toNat < 128) &&
                      allAscii (escString k ++ ('"' :: ':' :: ' ' ::
                        (dumpVal v ++ dumpObjTail tl))))) from rfl,
                  allAscii_append, escString_ascii k]
                rw [show allAscii ('"' :: ':' :: ' ' ::
                    (dumpVal v ++ dumpObjTail tl)) =
                  (decide ('"'.toNat < 128) && (decide (':'.toNat < 128) &&
                    (decide (' '.toNat < 128) &&
                      allAscii (dumpVal v ++ dumpObjTail tl)))) from rfl,
                  allAscii_append]
                rw [ihV v (by omega), ihM tl (by omega)]
                rfl
      · intro l hN
        cases l with
        | nil => rfl
        | cons v tl =>
            simp only [sizeItems] at hN
            rw [show dumpArrTail (.cons v tl) =
                ',' :: ' ' :: (dumpVal v ++ dumpArrTail tl) from rfl,
              show allAscii (',' :: ' ' :: (dumpVal v ++ dumpArrTail tl)) =
                (decide (','.toNat < 128) && (decide (' '.toNat < 128) &&
                  allAscii (dumpVal v ++ dumpArrTail tl))) from rfl,
              allAscii_append, ihV v (by omega), ihI tl (by omega)]
            rfl
      · intro m hN
        cases m with
        | nil => rfl
        | cons k v tl =>
            simp only [sizeMembers] at hN
            rw [show dumpObjTail (.cons k v tl) =
                ',' :: ' ' :: '"' :: (escString k ++ ('"' :: ':' :: ' ' ::
                  (dumpVal v ++ dumpObjTail tl))) from rfl,
              show allAscii (',' :: ' ' :: '"' :: (escString k ++ ('"' :: ':' ::
                  ' ' :: (dumpVal v ++ dumpObjTail tl)))) =
                (decide (','.toNat < 128) && (decide (' '.toNat < 128) &&
                  (decide ('"'.toNat < 128) &&
                    allAscii (escString k ++ ('"' :: ':' :: ' ' ::
                      (dumpVal v ++ dumpObjTail tl)))))) from rfl,
              allAscii_append, escString_ascii k]
            rw [show allAscii ('"' :: ':' :: ' ' ::
                (dumpVal v ++ dumpObjTail tl)) =
              (decide ('"'.toNat < 128) && (decide (':'.toNat < 128) &&
                (decide (' '.toNat < 128) &&
                  allAscii (dumpVal v ++ dumpObjTail tl)))) from rfl,
              allAscii_append, ihV v (by omega), ihM tl (by omega)]
            rfl

/-- The serialization of any value is pure ASCII. -/
theorem dumpVal_ascii (v : JValue) : allAscii (dumpVal v) = true :=
  (dump_ascii (sizeV v)).1 v le_rfl

/-- Unpacking the four packed bytes recovers any 32-bit length. -/
theorem unpack32_pack32 (n : Nat) (h : n < 4294967296) :
    unpack32 (n / 16777216 % 256) (n / 65536 % 256) (n / 256 % 256)
      (n % 256) = n := by
  unfold unpack32
  omega

/-- Decoding inverts encoding character-for-character. -/
theorem utf8Decode_utf8Encode (s : List Char) :
    utf8Decode (utf8Encode s) = s := by
  unfold utf8Decode utf8Encode
  rw [List.map_map,
    show (Char.ofNat ∘ Char.toNat) = id from funext fun c => Char.ofNat_toNat c,
    List.map_id]

/-- Receiving a well-formed frame parses exactly the payload and leaves
the rest of the stream untouched. -/
theorem receive_frame (payload extra : List Nat)
    (hL : payload.length < 4294967296) :
    receive_message ((pack32 payload.length ++ payload) ++ extra) =
      (jloads (utf8Decode (payload))).map (fun v => (v, extra)) := by
  rw [List.append_assoc]
  show receive_message (payload.length / 16777216 % 256 ::
    payload.length / 65536 % 256 :: payload.length / 256 % 256 ::
    payload.length % 256 :: (payload ++ extra)) = _
  simp only [receive_message]
  rw [unpack32_pack32 _ hL]
  rw [if_pos (by rw [List.length_append]; omega)]
  rw [List.take_left, List.drop_left]

/-- C5: encoding any JSON mapping through the IPC framing layer — a
4-byte big-endian uint32 length prefix followed by exactly that many
bytes of UTF-8 JSON — and then decoding reproduces the payload
byte-for-byte: `receive_message` after `send_message` returns a mapping
equal to the original, consuming exactly the frame and leaving any
trailing stream data untouched. -/
theorem ipc_roundtrip (ms : JMembers) (extra : List Nat)
    (h : (dumpVal (JValue.jobj ms)).length < 4294967296) :
    ∃ frame : List Nat,
      send_message (JValue.jobj ms) = some frame ∧
      frame.length = 4 + (dumpVal (JValue.jobj ms)).length ∧
      receive_message (frame ++ extra) = some (JValue.jobj ms, extra) := by
  have hlen : (utf8Encode (dumpVal (JValue.jobj ms))).length =
      (dumpVal (JValue.jobj ms)).length := List.length_map _ _
  refine ⟨pack32 (utf8Encode (dumpVal (JValue.jobj ms))).length ++
    utf8Encode (dumpVal (JValue.jobj ms)), ?_, ?_, ?_⟩
  · show (if (utf8Encode (dumpVal (JValue.jobj ms))).length < 4294967296 then
        some (pack32 (utf8Encode (dumpVal (JValue.jobj ms))).length ++
          utf8Encode (dumpVal (JValue.jobj ms)))
      else none) = _
    rw [if_pos (by rw [hlen]; exact h)]
  · simp only [List.length_append, pack32, List.length_cons, List.length_nil,
      hlen]
  · have hr := receive_frame (utf8Encode (dumpVal (JValue.jobj ms))) extra
      (by rw [hlen]; exact h)
    rw [utf8Decode_utf8Encode, jloads_dump] at hr
    rw [hr]
    rfl

/-- C5 witness: the two-byte-keyed boolean mapping roundtrips through
the framing layer with a trailing byte left on the stream. -/
theorem ipc_roundtrip_witness :
    (dumpVal (JValue.jobj (JMembers.cons "ok".data (.jbool true) .nil))).length
        < 4294967296 ∧
    ∃ frame : List Nat,
      send_message (JValue.jobj (JMembers.cons "ok".data (.jbool true) .nil)) =
        some frame ∧
      frame.length = 4 + (dumpVal (JValue.jobj
        (JMembers.cons "ok".data (.jbool true) .nil))).length ∧
      receive_message (frame ++ [7]) =
        some (JValue.jobj (JMembers.cons "ok".data (.jbool true) .nil), [7]) :=
  ⟨by decide, ipc_roundtrip (JMembers.cons "ok".data (.jbool true) .nil) [7]
    (by decide)⟩

end AdminMcp
